import Mathlib

/-!
Verification development for the ccm registry and link-management engine.

The definitions below are a shallow embedding of the TypeScript core
(packages/core/src): the persisted registry state (`CcmConfig`), its pure
operations from `config.ts`, the alias allocator from `alias.ts`, the link
manager from `linking.ts`, asset detection from `detection.ts`, and the
repository-level operations from `utils.ts`.

Modelling conventions:
- The persisted store is loaded fully and rewritten on every mutation; each
  exported async operation is therefore embedded as a pure state transformer
  on `CcmConfig` (and, where it touches the disk, on a filesystem model `Fs`).
- The filesystem is modelled as finite lists of regular-file paths, symlink
  entries (path and target) and directory paths. `existsSync` follows a
  symlink one level to its target, matching POSIX stat semantics for the
  states reached here (symlink targets are regular paths, chains do not
  arise). `lstat` inspects the path itself.
- Machine strings are Lean `String`; template literals become `++`.
-/

/-- Character is an ASCII lowercase letter. -/
def isLowerLetter (c : Char) : Bool :=
  ('a') ≤ c && c ≤ ('z')

/-! The string primitives of the runtime are modelled over the character
lists of the strings, so that every definition evaluates inside the kernel;
each helper mirrors one JS string method used by the source. -/

/-- The needle occurs as a contiguous substring of the haystack. -/
def listContainsSub (needle : List Char) : List Char → Bool
  | [] => needle.isEmpty
  | c :: rest => needle.isPrefixOf (c :: rest) || listContainsSub needle rest

/-- Substring containment, the model of `String.prototype.includes`. -/
def containsStr (hay needle : String) : Bool :=
  listContainsSub needle.data hay.data

/-- Character containment in a string. -/
def hasChar (s : String) (c : Char) : Bool :=
  s.data.contains c

/-- Model of `String.prototype.startsWith`. -/
def strStartsWith (s p : String) : Bool :=
  p.data.isPrefixOf s.data

/-- Model of `String.prototype.endsWith`. -/
def strEndsWith (s p : String) : Bool :=
  p.data.reverse.isPrefixOf s.data.reverse

/-- Drop the first `n` characters. -/
def strDropN (s : String) (n : Nat) : String :=
  String.mk (s.data.drop n)

/-- Lowercase every character, the model of `toLowerCase`. -/
def toLowerStr (s : String) : String :=
  String.mk (s.data.map Char.toLower)

/-- Index of the first occurrence of the needle, if any. -/
def firstSubIdx (needle : List Char) : List Char → Option Nat
  | [] => if needle.isEmpty then some 0 else none
  | c :: rest =>
    if needle.isPrefixOf (c :: rest) then some 0 else (firstSubIdx needle rest).map (· + 1)

/-- Splitting loop on a nonempty separator; the fuel is bounded by the input
length plus one and cannot run out. -/
def splitCharsGo (sep : List Char) : Nat → List Char → List Char → List (List Char)
  | 0, l, acc => [acc.reverse ++ l]
  | _ + 1, [], acc => [acc.reverse]
  | f + 1, c :: rest, acc =>
    if ¬ sep.isEmpty && sep.isPrefixOf (c :: rest) then
      acc.reverse :: splitCharsGo sep f ((c :: rest).drop sep.length) []
    else splitCharsGo sep f rest (c :: acc)

/-- Model of `String.prototype.split` on a literal separator. -/
def strSplitOn (s sep : String) : List String :=
  (splitCharsGo sep.data (s.data.length + 1) s.data []).map String.mk

/-- Join path segments with slashes, the model of `Array.prototype.join`
and `path.join` at the call sites here. -/
def joinSegs : List String → String
  | [] => ""
  | [s] => s
  | s :: rest => s ++ "/" ++ joinSegs rest

/-- Replace-all loop of a global string replacement: leftmost matches, non
overlapping; the fuel is bounded by the input length plus one. -/
def replaceAll (pat sub : List Char) : Nat → List Char → List Char
  | 0, l => l
  | _ + 1, [] => []
  | f + 1, c :: rest =>
    if ¬ pat.isEmpty && pat.isPrefixOf (c :: rest) then
      sub ++ replaceAll pat sub f ((c :: rest).drop pat.length)
    else c :: replaceAll pat sub f rest

/-- Model of the global regex replacement of a literal pattern. -/
def strReplace (s pat sub : String) : String :=
  String.mk (replaceAll pat.data sub.data (s.data.length + 1) s.data)

/-- The asset kinds of the core (`AssetType` in types). The config-bundle kind
is called `mcp` throughout the source. -/
inductive AssetType where
  | agent
  | skill
  | command
  | mcp
deriving DecidableEq

/-- A detected asset: kind, path relative to the source root, display name. -/
structure Asset where
  type : AssetType
  path : String
  name : String
deriving DecidableEq

/-- A registered repository record. `registryType` is `"github"` or
`"local"`; the GitHub fields `owner` and `repo` are carried on the record as
in the persisted JSON. The source field `alias` is spelled `aliasName` here
because `alias` is reserved in Lean. -/
structure Repository where
  aliasName : String
  registryType : String
  url : String
  localPath : String
  owner : String
  repo : String
  assets : List Asset
  updatedAt : String
deriving DecidableEq

/-- A selection: an asset of a source currently materialized as a link. -/
structure Selection where
  repoAlias : String
  assetPath : String
  type : AssetType
  linkedPath : String
deriving DecidableEq

/-- A staged MCP server entry, keyed by (source alias, bundle path, name). -/
structure StagedMcpServer where
  repoAlias : String
  assetPath : String
  serverName : String
deriving DecidableEq

/-- The whole persisted registry document. -/
structure CcmConfig where
  repositories : List Repository
  selections : List Selection
  stagedMcp : List StagedMcpServer
deriving DecidableEq

/-! ## Filesystem model -/

/-- Filesystem state: regular files, symlinks (path paired with target) and
directories, each as a finite list of absolute paths. -/
structure Fs where
  files : List String
  symlinks : List (String × String)
  dirs : List String
deriving DecidableEq

/-- Path is present as a regular file. -/
def Fs.isFile (fs : Fs) (p : String) : Bool :=
  p ∈ fs.files

/-- Path is present as a directory. -/
def Fs.isDir (fs : Fs) (p : String) : Bool :=
  p ∈ fs.dirs

/-- Target of the symlink at `p`, if any. -/
def Fs.linkTarget (fs : Fs) (p : String) : Option String :=
  fs.symlinks.lookup p

/-- Model of `lstatSync(p).isSymbolicLink()` for a path that is present. -/
def Fs.isSymlink (fs : Fs) (p : String) : Bool :=
  (fs.linkTarget p).isSome

/-- Model of `existsSync`: a regular file or directory at the path itself, or
a symlink whose target is a present regular file or directory. A dangling
symlink does NOT exist under this test, exactly as with node `existsSync`,
which stats the link target. -/
def Fs.existsSync (fs : Fs) (p : String) : Bool :=
  fs.isFile p || fs.isDir p ||
    (match fs.linkTarget p with
     | some t => fs.isFile t || fs.isDir t
     | none => false)

/-- Model of `unlink(p)`: the entry at the path itself disappears. -/
def Fs.unlink (fs : Fs) (p : String) : Fs :=
  ⟨fs.files.filter (fun q => q ≠ p), fs.symlinks.filter (fun e => e.1 ≠ p), fs.dirs⟩

/-- Path `p` equals `root` or lies strictly underneath it. -/
def underPath (root p : String) : Bool :=
  p = root || strStartsWith p (root ++ "/")

/-- Model of `rm(root, { recursive: true, force: true })`: every entry at or
under the root disappears; a no-op when nothing is there. -/
def Fs.removeTree (fs : Fs) (root : String) : Fs :=
  ⟨fs.files.filter (fun q => ¬ underPath root q),
   fs.symlinks.filter (fun e => ¬ underPath root e.1),
   fs.dirs.filter (fun q => ¬ underPath root q)⟩

/-- Model of `symlink(target, p)`: records the link entry. Callers check for
an existing entry first; creation over an occupied path is rejected by the
callers embedded below, mirroring the EEXIST failure of the syscall. -/
def Fs.addSymlink (fs : Fs) (p target : String) : Fs :=
  ⟨fs.files, (p, target) :: fs.symlinks, fs.dirs⟩

/-- Model of `mkdir(p, { recursive: true })` at the granularity the claims
need: the single directory path is recorded. -/
def Fs.mkdirAt (fs : Fs) (p : String) : Fs :=
  ⟨fs.files, fs.symlinks, if (p ∈ fs.dirs) then fs.dirs else fs.dirs ++ [p]⟩

/-- Model of `writeFile(p, ...)`: the path becomes a regular file. -/
def Fs.writeFileAt (fs : Fs) (p : String) : Fs :=
  ⟨if (p ∈ fs.files) then fs.files else fs.files ++ [p], fs.symlinks, fs.dirs⟩

/-! ## Path resolver (paths.ts)

The home directory is an ambient constant of the process; it is modelled as
a fixed abstract path. -/

def homeDirPath : String := "/home/u"

def getConfigDir : String := homeDirPath ++ "/.config/ccm"

def getConfigPath : String := getConfigDir ++ "/config.json"

def getDataDir : String := homeDirPath ++ "/.local/share/ccm"

def getReposDir : String := getDataDir ++ "/repos"

def getClaudeDir : String := homeDirPath ++ "/.claude"

def getAgentsDir : String := getClaudeDir ++ "/agents"

def getSkillsDir : String := getClaudeDir ++ "/skills"

def getCommandsDir : String := getClaudeDir ++ "/commands"

def getMcpConfigPath : String := getClaudeDir ++ "/mcp.json"

/-! ## Registry operations (config.ts), pure parts

Every exported operation loads the whole document, transforms it and saves
it; the embedding keeps the transformation. -/

/-- Replace the first list element satisfying `pred` by `a`, else append
`a`; the model of the `findIndex` upsert used by addRepository and
addSelection. -/
def upsertBy (pred : α → Bool) (a : α) : List α → List α
  | [] => [a]
  | x :: xs => if pred x then a :: xs else x :: upsertBy pred a xs

/-- Remove the first list element satisfying `pred`, returning it and the
remaining list; the model of `findIndex` followed by `splice(i, 1)`. -/
def removeFirst (pred : α → Bool) : List α → Option (α × List α)
  | [] => none
  | x :: xs =>
    if pred x then some (x, xs)
    else (removeFirst pred xs).map (fun r => (r.1, x :: r.2))

/-- getRepository: first repository with the given alias. -/
def getRepository (cfg : CcmConfig) (a : String) : Option Repository :=
  cfg.repositories.find? (fun r => r.aliasName = a)

/-- addRepository: upsert by alias (replace the first match, else append). -/
def addRepository (cfg : CcmConfig) (repo : Repository) : CcmConfig :=
  { cfg with repositories := upsertBy (fun r => r.aliasName = repo.aliasName) repo cfg.repositories }

/-- removeRepository: drop the repository and cascade-delete the selections
and staged entries keyed to its alias. Returns the removed record. -/
def removeRepository (cfg : CcmConfig) (a : String) : CcmConfig × Option Repository :=
  match removeFirst (fun r => r.aliasName = a) cfg.repositories with
  | none => (cfg, none)
  | some (removed, rest) =>
    ({ repositories := rest,
       selections := cfg.selections.filter (fun s => s.repoAlias ≠ a),
       stagedMcp := cfg.stagedMcp.filter (fun s => s.repoAlias ≠ a) },
     some removed)

/-- addSelection: upsert by the (source alias, asset path) key. -/
def addSelection (cfg : CcmConfig) (sel : Selection) : CcmConfig :=
  { cfg with selections :=
      (upsertBy (fun s => s.repoAlias = sel.repoAlias && s.assetPath = sel.assetPath)
        sel cfg.selections) }

/-- removeSelection: drop the first selection with the key, returning it. -/
def removeSelection (cfg : CcmConfig) (a p : String) : CcmConfig × Option Selection :=
  match removeFirst (fun s => s.repoAlias = a && s.assetPath = p) cfg.selections with
  | none => (cfg, none)
  | some (removed, rest) => ({ cfg with selections := rest }, some removed)

/-- getSelectionsForRepo: the selections keyed to the alias. -/
def getSelectionsForRepo (cfg : CcmConfig) (a : String) : List Selection :=
  cfg.selections.filter (fun s => s.repoAlias = a)

/-- stageMcpServer: append the entry unless the exact triple is present. -/
def stageMcpServer (cfg : CcmConfig) (a p n : String) : CcmConfig :=
  if cfg.stagedMcp.any (fun s => s.repoAlias = a && s.assetPath = p && s.serverName = n) then cfg
  else { cfg with stagedMcp := cfg.stagedMcp ++ [⟨a, p, n⟩] }

/-- unstageMcpServer: drop every entry with the exact triple. -/
def unstageMcpServer (cfg : CcmConfig) (a p n : String) : CcmConfig :=
  { cfg with stagedMcp :=
      (cfg.stagedMcp.filter
        (fun s => ¬ (s.repoAlias = a && s.assetPath = p && s.serverName = n))) }

/-- clearStagedMcp: wipe all staged entries. -/
def clearStagedMcp (cfg : CcmConfig) : CcmConfig :=
  { cfg with stagedMcp := [] }

/-- Number of staged entries carrying the exact triple. -/
def countStaged (cfg : CcmConfig) (a p n : String) : Nat :=
  cfg.stagedMcp.countP (fun s => s.repoAlias = a && s.assetPath = p && s.serverName = n)

/-! ## Alias allocator (alias.ts)

The template literal `base + counter` renders the counter in decimal; the
renderer is defined here together with a proof that it is injective, which
the collision-loop analysis needs. -/

/-- Decimal digit character for a digit below ten. -/
def digitChar (d : Nat) : Char :=
  Char.ofNat (48 + d)

/-- Numeric value of a decimal digit character. -/
def digitVal (c : Char) : Nat :=
  c.toNat - 48

theorem digitVal_digitChar : ∀ d : Nat, d < 10 → digitVal (digitChar d) = d := by
  decide

/-- Little-endian decimal digit loop; the fuel is structural so the kernel
can evaluate it, and fuel `n` always suffices for input `n`. -/
def renderRevFuel : Nat → Nat → List Char
  | 0, n => [digitChar n]
  | f + 1, n =>
    if n < 10 then [digitChar n] else digitChar (n % 10) :: renderRevFuel f (n / 10)

/-- Little-endian decimal digits of a natural number. -/
def renderRev (n : Nat) : List Char :=
  renderRevFuel n n

/-- Value of a little-endian digit-character list. -/
def parseRev : List Char → Nat
  | [] => 0
  | c :: cs => digitVal c + 10 * parseRev cs

theorem parseRev_renderRevFuel : ∀ (f n : Nat), n ≤ f →
    parseRev (renderRevFuel f n) = n := by
  intro f
  induction f with
  | zero =>
    intro n hn
    have : n = 0 := by omega
    subst this
    simp [renderRevFuel, parseRev, digitVal_digitChar 0 (by omega)]
  | succ f ih =>
    intro n hn
    by_cases h : n < 10
    · simp [renderRevFuel, h, parseRev, digitVal_digitChar n h]
    · have hd : n / 10 ≤ f := by
        have := Nat.div_lt_self (show 0 < n by omega) (show 1 < 10 by omega)
        omega
      simp [renderRevFuel, h, parseRev, ih _ hd,
        digitVal_digitChar (n % 10) (Nat.mod_lt _ (by omega))]
      omega

theorem parseRev_renderRev (n : Nat) : parseRev (renderRev n) = n :=
  parseRev_renderRevFuel n n (le_refl n)

/-- Decimal rendering of a natural number, the model of JS number-to-string
coercion inside a template literal. -/
def natStr (n : Nat) : String :=
  String.mk (renderRev n).reverse

theorem natStr_injective : Function.Injective natStr := by
  intro a b h
  have hdata : (renderRev a).reverse = (renderRev b).reverse := congrArg String.data h
  have hrr : renderRev a = renderRev b := List.reverse_injective hdata
  calc a = parseRev (renderRev a) := (parseRev_renderRev a).symm
    _ = parseRev (renderRev b) := by rw [hrr]
    _ = b := parseRev_renderRev b

theorem append_natStr_injective (base : String) :
    Function.Injective (fun k => base ++ natStr k) := by
  intro a b h
  have hdata : base.data ++ (natStr a).data = base.data ++ (natStr b).data := by
    have := congrArg String.data h
    simpa [String.data_append] using this
  exact natStr_injective (String.ext (List.append_cancel_left hdata))

/-- isLegacyAlias / isLegacyAliasFormat: the legacy short-alias pattern, a
full match of one to four lowercase letters followed by optional digits,
with no dot anywhere. The regular expression of the source splits the
string into a lowercase-letter block and a digit tail. -/
def isLegacyAliasFormat (a : String) : Bool :=
  if hasChar a ('.') then false
  else
    let cs := a.data
    let letters := cs.takeWhile isLowerLetter
    let rest := cs.drop letters.length
    (decide (1 ≤ letters.length) && decide (letters.length ≤ 4)) && rest.all (fun c => c.isDigit)

/-- isLegacyAlias in alias.ts has the same body as isLegacyAliasFormat in
config.ts. -/
def isLegacyAlias (a : String) : Bool :=
  isLegacyAliasFormat a

/-- generateNewAlias: canonical owner.repo alias, lowercased. -/
def generateNewAlias (owner repo : String) : String :=
  toLowerStr owner ++ "." ++ toLowerStr repo

/-- Collision loop of generateAlias: starting at counter `c`, return the
first counter whose candidate alias is unused. The fuel bounds the while
loop of the source; `exists_free_counter` below shows that fuel
`existing.length + 1` can never run out. -/
def firstFreeCounter (existing : List String) (base : String) : Nat → Nat → Nat
  | c, 0 => c
  | c, f + 1 =>
    if (base ++ natStr c) ∈ existing then firstFreeCounter existing base (c + 1) f else c

/-- generateAlias: base alias `owner.repo` (lowercase); on collision with an
existing alias, append the first free counter starting from 2. -/
def generateAlias (existing : List String) (owner repo : String) : String :=
  let base := generateNewAlias owner repo
  if base ∈ existing then base ++ natStr (firstFreeCounter existing base 2 (existing.length + 1))
  else base

/-- getNamespacedFilename: alias-hyphen-name. -/
def getNamespacedFilename (a assetName : String) : String :=
  a ++ "-" ++ assetName

theorem exists_free_counter (existing : List String) (base : String) (c : Nat) :
    ∃ k, c ≤ k ∧ k < c + (existing.length + 1) ∧ (base ++ natStr k) ∉ existing := by
  by_contra hcon
  push_neg at hcon
  have hsub : ((List.range' c (existing.length + 1)).map (fun k => base ++ natStr k)) ⊆ existing := by
    intro x hx
    rw [List.mem_map] at hx
    obtain ⟨k, hk, rfl⟩ := hx
    rw [List.mem_range'_1] at hk
    exact hcon k hk.1 (by omega)
  have hnd : ((List.range' c (existing.length + 1)).map (fun k => base ++ natStr k)).Nodup :=
    (List.nodup_range' c (existing.length + 1) 1 Nat.one_pos).map (append_natStr_injective base)
  have hcard1 : ((List.range' c (existing.length + 1)).map (fun k => base ++ natStr k)).toFinset.card
      = existing.length + 1 := by
    rw [List.toFinset_card_of_nodup hnd, List.length_map, List.length_range']
  have hsubF : ((List.range' c (existing.length + 1)).map (fun k => base ++ natStr k)).toFinset
      ⊆ existing.toFinset := by
    intro x hx
    rw [List.mem_toFinset] at hx ⊢
    exact hsub hx
  have h2 := Finset.card_le_card hsubF
  have h3 := List.toFinset_card_le existing
  omega

theorem firstFreeCounter_spec (existing : List String) (base : String) :
    ∀ fuel c, (∃ k, c ≤ k ∧ k < c + fuel ∧ (base ++ natStr k) ∉ existing) →
      c ≤ firstFreeCounter existing base c fuel ∧
      (base ++ natStr (firstFreeCounter existing base c fuel)) ∉ existing ∧
      (∀ m, c ≤ m → m < firstFreeCounter existing base c fuel → (base ++ natStr m) ∈ existing) := by
  intro fuel
  induction fuel with
  | zero =>
    intro c h
    obtain ⟨k, hk1, hk2, _⟩ := h
    omega
  | succ f ih =>
    intro c h
    obtain ⟨k, hk1, hk2, hkfree⟩ := h
    by_cases hc : (base ++ natStr c) ∈ existing
    · have hkc : c ≠ k := by
        rintro rfl
        exact hkfree hc
      have hrec := ih (c + 1) ⟨k, by omega, by omega, hkfree⟩
      have heq : firstFreeCounter existing base c (f + 1)
          = firstFreeCounter existing base (c + 1) f := by
        simp [firstFreeCounter, hc]
      refine ⟨by omega, by rw [heq]; exact hrec.2.1, ?_⟩
      intro m hm1 hm2
      rw [heq] at hm2
      rcases Nat.eq_or_lt_of_le hm1 with hme | hml
      · rw [← hme]; exact hc
      · exact hrec.2.2 m (by omega) hm2
    · have heq : firstFreeCounter existing base c (f + 1) = c := by
        simp [firstFreeCounter, hc]
      rw [heq]
      exact ⟨le_refl c, hc, fun m hm1 hm2 => absurd hm1 (by omega)⟩

/-- Summary specification of generateAlias: the base alias when free,
otherwise the smallest counter at least 2 whose candidate is free. -/
theorem generateAlias_spec (existing : List String) (owner repo : String) :
    (generateNewAlias owner repo ∉ existing →
      generateAlias existing owner repo = generateNewAlias owner repo) ∧
    (generateNewAlias owner repo ∈ existing →
      ∃ k, 2 ≤ k ∧
        generateAlias existing owner repo = generateNewAlias owner repo ++ natStr k ∧
        (generateNewAlias owner repo ++ natStr k) ∉ existing ∧
        (∀ m, 2 ≤ m → m < k → (generateNewAlias owner repo ++ natStr m) ∈ existing)) := by
  constructor
  · intro hfree
    simp [generateAlias, hfree]
  · intro hused
    refine ⟨firstFreeCounter existing (generateNewAlias owner repo) 2 (existing.length + 1), ?_, ?_, ?_, ?_⟩
    · exact (firstFreeCounter_spec existing (generateNewAlias owner repo) (existing.length + 1) 2
        (exists_free_counter existing (generateNewAlias owner repo) 2)).1
    · simp [generateAlias, hused]
    · exact (firstFreeCounter_spec existing (generateNewAlias owner repo) (existing.length + 1) 2
        (exists_free_counter existing (generateNewAlias owner repo) 2)).2.1
    · exact fun m hm1 hm2 =>
        (firstFreeCounter_spec existing (generateNewAlias owner repo) (existing.length + 1) 2
          (exists_free_counter existing (generateNewAlias owner repo) 2)).2.2 m hm1 hm2

/-! ## Legacy alias migration (config.ts)

`migrateLegacyAliases` scans for GitHub repositories whose alias matches the
legacy pattern, computes an old-to-new alias mapping (collision check against
the aliases of the OTHER repositories, which at that moment still carry their
pre-migration values), then rewrites repositories, selections and staged
entries. Object identity `r !== repo` is modelled positionally via `enum`. -/

/-- Some repository other than the one at position `i` carries alias `cand`. -/
def othersHaveAlias (repos : List Repository) (i : Nat) (cand : String) : Bool :=
  repos.enum.any (fun e => e.1 ≠ i && e.2.aliasName = cand)

/-- Collision loop of the migration: first counter from `c` whose candidate
is not carried by another repository. Fuel bounds the while loop. -/
def firstFreeMigCounter (repos : List Repository) (i : Nat) (newAlias : String) :
    Nat → Nat → Nat
  | c, 0 => c
  | c, f + 1 =>
    if othersHaveAlias repos i (newAlias ++ natStr c) then
      firstFreeMigCounter repos i newAlias (c + 1) f
    else c

/-- Final alias of the repository at position `i` migrating to `newAlias`. -/
def resolveFinalAlias (repos : List Repository) (i : Nat) (newAlias : String) : String :=
  if othersHaveAlias repos i newAlias then
    newAlias ++ natStr (firstFreeMigCounter repos i newAlias 2 (repos.length + 1))
  else newAlias

/-- Model of `Map.set`: replace the value of an existing key in place, else
append the pair. -/
def mapSet (m : List (String × String)) (k v : String) : List (String × String) :=
  if m.any (fun e => e.1 = k) then m.map (fun e => if e.1 = k then (k, v) else e)
  else m ++ [(k, v)]

/-- Loop body of the first migration pass at loop position `i`. -/
def mappingStep (repos : List Repository) (m : List (String × String))
    (i : Nat) (r : Repository) : List (String × String) :=
  if r.registryType = "github" && isLegacyAliasFormat r.aliasName then
    mapSet m r.aliasName (resolveFinalAlias repos i (generateNewAlias r.owner r.repo))
  else m

/-- First pass of the migration over the repository list, with the loop
position carried explicitly (it stands for object identity in the
collision check). -/
def computeMappingGo (repos : List Repository) : Nat → List Repository →
    List (String × String) → List (String × String)
  | _, [], m => m
  | i, r :: rest, m => computeMappingGo repos (i + 1) rest (mappingStep repos m i r)

/-- First pass of the migration: the old-alias to new-alias mapping. -/
def computeAliasMapping (repos : List Repository) : List (String × String) :=
  computeMappingGo repos 0 repos []

/-- Re-root a path from `root` to `newRoot` when it lies at or under `root`. -/
def replacePathPrefix (root newRoot p : String) : String :=
  if p = root then newRoot
  else if strStartsWith p (root ++ "/") then newRoot ++ "/" ++ (strDropN p (root.length + 1))
  else p

/-- Model of `rename(root, newRoot)` on a directory: every entry at or under
the root moves; symlink target strings are untouched, as with the syscall. -/
def Fs.renameTree (fs : Fs) (root newRoot : String) : Fs :=
  ⟨fs.files.map (replacePathPrefix root newRoot),
   fs.symlinks.map (fun e => (replacePathPrefix root newRoot e.1, e.2)),
   fs.dirs.map (replacePathPrefix root newRoot)⟩

/-- Second pass of the migration over the repository list, carrying the
filesystem for the directory rename. The try/catch around `rename` tolerates
an IO failure by keeping the old path; IO failure is outside this model, so
the attempted rename is modelled as succeeding. -/
def migrateRepos (mapping : List (String × String)) :
    List Repository → Fs → List Repository × Fs
  | [], fs => ([], fs)
  | r :: rest, fs =>
    match mapping.lookup r.aliasName with
    | none =>
      let p := migrateRepos mapping rest fs
      (r :: p.1, p.2)
    | some newA =>
      let newPath := getReposDir ++ "/" ++ newA
      let rfs : Repository × Fs :=
        if fs.existsSync r.localPath && ¬ fs.existsSync newPath then
          ({ r with aliasName := newA, localPath := newPath },
           fs.renameTree r.localPath newPath)
        else if fs.existsSync newPath then
          ({ r with aliasName := newA, localPath := newPath }, fs)
        else ({ r with aliasName := newA }, fs)
      let p := migrateRepos mapping rest rfs.2
      (rfs.1 :: p.1, p.2)

/-- Selection rewrite of the migration: rekey to the new alias and patch the
alias-derived `alias-` substring inside the materialized link path. -/
def rewriteSelection (mapping : List (String × String)) (s : Selection) : Selection :=
  match mapping.lookup s.repoAlias with
  | some newA =>
    let lp := if containsStr s.linkedPath s.repoAlias
              then strReplace s.linkedPath (s.repoAlias ++ "-") (newA ++ "-")
              else s.linkedPath
    { s with repoAlias := newA, linkedPath := lp }
  | none => s

/-- Staged-entry rewrite of the migration: rekey to the new alias. -/
def rewriteStaged (mapping : List (String × String)) (st : StagedMcpServer) : StagedMcpServer :=
  match mapping.lookup st.repoAlias with
  | some newA => { st with repoAlias := newA }
  | none => st

/-- migrateLegacyAliases: the whole migration pass run on every load. -/
def migrateLegacyAliases (cfg : CcmConfig) (fs : Fs) : Bool × CcmConfig × Fs :=
  let mapping := computeAliasMapping cfg.repositories
  if mapping.isEmpty then (false, cfg, fs)
  else
    let rp := migrateRepos mapping cfg.repositories fs
    (true,
     { repositories := rp.1,
       selections := cfg.selections.map (rewriteSelection mapping),
       stagedMcp := cfg.stagedMcp.map (rewriteStaged mapping) },
     rp.2)

/-! ## Load path (config.ts loadConfig)

A parsed store document before normalization: the `registryType` field may
be absent (old records), and each of the three lists may be missing
entirely (`?? []`). -/

/-- A repository record as parsed from the persisted JSON document. -/
structure RawRepository where
  aliasName : String
  registryType : Option String
  url : String
  localPath : String
  owner : String
  repo : String
  assets : List Asset
  updatedAt : String
deriving DecidableEq

/-- Per-record normalization inside loadConfig: a record without
`registryType` becomes a GitHub record, every other field kept; a record
with the field is passed through unchanged. (On the typed domain the
JS truthiness test coincides with field presence, since both legal values
are nonempty strings.) -/
def normalizeRepo (r : RawRepository) : Repository :=
  match r.registryType with
  | none => ⟨r.aliasName, "github", r.url, r.localPath, r.owner, r.repo, r.assets, r.updatedAt⟩
  | some t => ⟨r.aliasName, t, r.url, r.localPath, r.owner, r.repo, r.assets, r.updatedAt⟩

/-- A parsed store document; each missing list defaults to empty. -/
structure RawConfig where
  repositories : Option (List RawRepository)
  selections : Option (List Selection)
  stagedMcp : Option (List StagedMcpServer)

/-- loadConfig on a parseable store document: normalize the repository
records, then run the legacy alias migration. The surrounding IO (missing
or unparsable file gives the default config, the migrated document is
saved back) sits outside the pure pipeline. -/
def loadConfigPure (raw : RawConfig) (fs : Fs) : CcmConfig × Fs :=
  let migratedRepos := (raw.repositories.getD []).map normalizeRepo
  let cfg : CcmConfig := ⟨migratedRepos, raw.selections.getD [], raw.stagedMcp.getD []⟩
  let m := migrateLegacyAliases cfg fs
  (m.2.1, m.2.2)

/-! ## Path pieces (node:path at the call sites of the core) -/

/-- Final path segment. -/
def lastSeg (p : String) : String :=
  (strSplitOn p ("/")).getLastD ("")

/-- Model of node `extname`: the suffix of the final segment from its last
dot, empty when there is no dot or the only dot is the leading character. -/
def extname (p : String) : String :=
  let b := lastSeg p
  let revTail := b.data.reverse.takeWhile (fun c => c ≠ ('.'))
  if revTail.length = b.data.length then ""
  else if revTail.length + 1 = b.data.length then ""
  else String.mk (('.') :: revTail.reverse)

/-- Model of node `basename(p, ext)`: the final segment with a trailing
`ext` stripped when the segment is longer than the extension. -/
def basenameMinus (p ext : String) : String :=
  let b := lastSeg p
  if ext.length > 0 && ext.length < b.length && strEndsWith b ext then
    String.mk (b.data.take (b.data.length - ext.data.length))
  else b

/-- Model of node `dirname` for the multi-segment paths used here. -/
def dirname (p : String) : String :=
  let segs := strSplitOn p ("/")
  if segs.length ≤ 1 then "." else joinSegs segs.dropLast

/-! ## Link manager (linking.ts) -/

/-- Broken-link reasons reported by diagnose. -/
inductive LinkHealthIssue where
  | brokenSymlink
  | missingSource
deriving DecidableEq

/-- Health verdict for one selection. -/
structure LinkHealth where
  selection : Selection
  healthy : Bool
  issue : Option LinkHealthIssue
deriving DecidableEq

/-- The partition returned by diagnose. -/
structure DiagnosisResult where
  healthy : List LinkHealth
  broken : List LinkHealth
deriving DecidableEq

/-- getTargetDir: target root per asset kind; the mcp kind throws in the
source and is `none` here (unreachable behind the mcp guard of linkAsset). -/
def getTargetDir : AssetType → Option String
  | AssetType.agent => some getAgentsDir
  | AssetType.skill => some getSkillsDir
  | AssetType.command => some getCommandsDir
  | AssetType.mcp => none

/-- linkAsset: create the symlink materializing one asset and record the
selection. Failures are the `Except.error` cases and leave no state change,
exactly as the thrown errors of the source do (every check precedes the
first write). The `EEXIST` case models the `symlink` syscall failing when
the destination is still occupied (only possible by a dangling symlink,
which the `existsSync` guard does not see). -/
def linkAsset (cfg : CcmConfig) (fs : Fs) (repoAlias : String) (asset : Asset) :
    Except String (CcmConfig × Fs × Selection) :=
  match getRepository cfg repoAlias with
  | none => Except.error ("Repository not found: " ++ repoAlias)
  | some repo =>
    if asset.type = AssetType.mcp then
      Except.error ("MCP assets should be staged using stageMcpServers() instead of linkAsset()")
    else
      let sourcePath := repo.localPath ++ "/" ++ asset.path
      if ¬ fs.existsSync sourcePath then Except.error ("Asset not found: " ++ sourcePath)
      else
        match getTargetDir asset.type with
        | none => Except.error ("MCP assets should not be directly linked")
        | some targetDir =>
          let fs1 := fs.mkdirAt targetDir
          if asset.type = AssetType.skill then
            let skillDir := targetDir ++ "/" ++ getNamespacedFilename repoAlias asset.name
            let fs2 := fs1.mkdirAt skillDir
            let targetPath := skillDir ++ "/SKILL.md"
            let fs3 := if fs2.existsSync targetPath then fs2.unlink targetPath else fs2
            if fs3.isFile targetPath || fs3.isSymlink targetPath || fs3.isDir targetPath then
              Except.error ("EEXIST: " ++ targetPath)
            else
              let fs4 := fs3.addSymlink targetPath sourcePath
              let sel : Selection := ⟨repoAlias, asset.path, asset.type, targetPath⟩
              Except.ok (addSelection cfg sel, fs4, sel)
          else
            let ext := extname asset.path
            let nameWithoutExt := basenameMinus asset.path ext
            let targetFilename := getNamespacedFilename repoAlias nameWithoutExt ++ ext
            let targetPath := targetDir ++ "/" ++ targetFilename
            let fs3 := if fs1.existsSync targetPath then fs1.unlink targetPath else fs1
            if fs3.isFile targetPath || fs3.isSymlink targetPath || fs3.isDir targetPath then
              Except.error ("EEXIST: " ++ targetPath)
            else
              let fs4 := fs3.addSymlink targetPath sourcePath
              let sel : Selection := ⟨repoAlias, asset.path, asset.type, targetPath⟩
              Except.ok (addSelection cfg sel, fs4, sel)

/-- unlinkAsset: drop the selection record, then remove the symlink (and for
skills the containing directory). Returns false both when no record matched
and when the removed record was an mcp selection. -/
def unlinkAsset (cfg : CcmConfig) (fs : Fs) (repoAlias assetPath : String) :
    CcmConfig × Fs × Bool :=
  match removeSelection cfg repoAlias assetPath with
  | (cfg1, none) => (cfg1, fs, false)
  | (cfg1, some selection) =>
    if selection.type = AssetType.mcp then (cfg1, fs, false)
    else
      let fs1 :=
        if fs.existsSync selection.linkedPath then
          let fsA := fs.unlink selection.linkedPath
          if selection.type = AssetType.skill then fsA.removeTree (dirname selection.linkedPath)
          else fsA
        else fs
      (cfg1, fs1, true)

/-- Per-selection health check, the loop body of diagnose, with the checks
in source order: link path existence, link path is a symlink, owning source
registered, asset path present under the source. -/
def classify (cfg : CcmConfig) (fs : Fs) (s : Selection) : LinkHealth :=
  if ¬ fs.existsSync s.linkedPath then ⟨s, false, some LinkHealthIssue.brokenSymlink⟩
  else if ¬ fs.isSymlink s.linkedPath then ⟨s, false, some LinkHealthIssue.brokenSymlink⟩
  else
    match getRepository cfg s.repoAlias with
    | none => ⟨s, false, some LinkHealthIssue.missingSource⟩
    | some repo =>
      if ¬ fs.existsSync (repo.localPath ++ "/" ++ s.assetPath) then
        ⟨s, false, some LinkHealthIssue.missingSource⟩
      else ⟨s, true, none⟩

/-- diagnose: classify every non-mcp selection; the loop appends each
verdict to exactly one of the two lists in order, which is the partition
below. -/
def diagnose (cfg : CcmConfig) (fs : Fs) : DiagnosisResult :=
  let checked := (cfg.selections.filter (fun s => s.type ≠ AssetType.mcp)).map (classify cfg fs)
  ⟨checked.filter (fun h => h.healthy), checked.filter (fun h => ¬ h.healthy)⟩

/-! ## Config merge and sync (linking.ts) -/

/-- The mcpServers map of one parsed bundle; values are opaque payloads. -/
structure McpCfg where
  mcpServers : List (String × String)
deriving DecidableEq

/-- Model of `merged.mcpServers[name] = v` on a JS object: overwrite in
place when the key exists, else append. -/
def upsertServer (m : List (String × String)) (k v : String) : List (String × String) :=
  if m.any (fun e => e.1 = k) then m.map (fun e => if e.1 = k then (k, v) else e)
  else m ++ [(k, v)]

/-- Loop of buildMcpConfig over the staged entries, carrying the per
(source, bundle) file cache and the merged map. `jsonOf` stands for
readFile plus JSON.parse: `none` is an unreadable or unparsable bundle. -/
def buildMcpLoop (cfg : CcmConfig) (fs : Fs) (jsonOf : String → Option McpCfg) :
    List StagedMcpServer → List (String × McpCfg) → List (String × String) →
    List (String × String)
  | [], _, merged => merged
  | st :: rest, cache, merged =>
    let cacheKey := st.repoAlias ++ ":" ++ st.assetPath
    match cache.lookup cacheKey with
    | some c =>
      match c.mcpServers.lookup st.serverName with
      | some v => buildMcpLoop cfg fs jsonOf rest cache (upsertServer merged st.serverName v)
      | none => buildMcpLoop cfg fs jsonOf rest cache merged
    | none =>
      match getRepository cfg st.repoAlias with
      | none => buildMcpLoop cfg fs jsonOf rest cache merged
      | some repo =>
        let sourcePath := repo.localPath ++ "/" ++ st.assetPath
        if ¬ fs.existsSync sourcePath then buildMcpLoop cfg fs jsonOf rest cache merged
        else
          match jsonOf sourcePath with
          | none => buildMcpLoop cfg fs jsonOf rest cache merged
          | some c =>
            match c.mcpServers.lookup st.serverName with
            | some v =>
              buildMcpLoop cfg fs jsonOf rest (cache ++ [(cacheKey, c)])
                (upsertServer merged st.serverName v)
            | none => buildMcpLoop cfg fs jsonOf rest (cache ++ [(cacheKey, c)]) merged

/-- buildMcpConfig: merge the staged server entries best-effort. -/
def buildMcpConfig (cfg : CcmConfig) (fs : Fs) (jsonOf : String → Option McpCfg) : McpCfg :=
  ⟨buildMcpLoop cfg fs jsonOf cfg.stagedMcp [] []⟩

/-- syncMcp: build the merged config, ensure the output directory, write the
output file, and clear the staged entries only after the successful write.
`writeOk` stands for the success of the `writeFile` call; when it fails the
thrown error aborts the function before `clearStagedMcp` runs, so the
registry document is left untouched (`none` marks the failed write). -/
def syncMcp (cfg : CcmConfig) (fs : Fs) (jsonOf : String → Option McpCfg) (writeOk : Bool) :
    CcmConfig × Fs × Option McpCfg :=
  let merged := buildMcpConfig cfg fs jsonOf
  let fs1 := fs.mkdirAt getClaudeDir
  if writeOk then (clearStagedMcp cfg, fs1.writeFileAt getMcpConfigPath, some merged)
  else (cfg, fs1, none)

/-! ## Repository lifecycle (utils.ts) -/

/-- findExistingRepository: a GitHub repository with the same owner and
name, compared case-insensitively. -/
def findExistingRepository (cfg : CcmConfig) (owner repo : String) : Option Repository :=
  cfg.repositories.find? (fun r =>
    r.registryType = "github" && toLowerStr r.owner = toLowerStr owner
      && toLowerStr r.repo = toLowerStr repo)

/-- cloneRepository after the URL parse: reject a duplicate identity,
allocate the alias against the live alias list, refuse an occupied clone
directory, then materialize the clone directory and register the record.
The git transfer and the asset detection pass over the fresh clone are
external IO; the record carries the constants the claims never read. -/
def registerRepository (cfg : CcmConfig) (fs : Fs) (owner repo url : String) :
    Except String (CcmConfig × Fs × Repository) :=
  match findExistingRepository cfg owner repo with
  | some existing =>
    Except.error ("Repository already registered as \"" ++ existing.aliasName ++ "\" ("
      ++ owner ++ "/" ++ repo ++ ")")
  | none =>
    let a := generateAlias (cfg.repositories.map (fun r => r.aliasName)) owner repo
    let localPath := getReposDir ++ "/" ++ a
    let fs1 := if fs.existsSync getReposDir then fs else fs.mkdirAt getReposDir
    if fs1.existsSync localPath then Except.error ("Repository already exists at " ++ localPath)
    else
      let fs2 := fs1.mkdirAt localPath
      let repository : Repository := ⟨a, "github", url, localPath, owner, repo, [], "t0"⟩
      Except.ok (addRepository cfg repository, fs2, repository)

/-- removeRepo: look the repository up, count its selections, cascade-delete
the registry records, then delete the clone directory. The symlinks of the
removed selections are not touched. -/
def removeRepo (cfg : CcmConfig) (fs : Fs) (a : String) :
    Option (CcmConfig × Fs × Repository × Nat) :=
  match getRepository cfg a with
  | none => none
  | some repo =>
    let unlinkedCount := (getSelectionsForRepo cfg a).length
    let cfg1 := (removeRepository cfg a).1
    let fs1 := if fs.existsSync repo.localPath then fs.removeTree repo.localPath else fs
    some (cfg1, fs1, repo, unlinkedCount)

/-! ## Asset detection (detection.ts)

The scanned source tree is modelled as a list of named entries; file
contents ride along so the frontmatter sniff can read them. Two snapshots of
the detector exist in the repository: the `findFiles`-based one at
packages/core/src/detection.ts, which only enters the top-level `agents`
directory, and a glob-based one (pattern `**/agents/**/*.md`) that matches
an `agents` segment at any depth, as the detection test suite requires. Both
are embedded below. -/

/-- A directory tree entry: a file with content, or a directory. -/
inductive DirTree where
  | file (name : String) (content : String)
  | dir (name : String) (children : List DirTree)

/-- Model of the `.md` filename test `/\.md$/i`. -/
def mdPat (n : String) : Bool :=
  strEndsWith (toLowerStr n) (".md")

mutual

/-- findFiles over the children of a directory: full paths (with content)
of the files whose NAME matches the pattern, skipping hidden entries and
`node_modules` before descending. -/
def findFilesList (dirPath : String) (pat : String → Bool) :
    List DirTree → List (String × String)
  | [] => []
  | e :: rest => findFilesOne dirPath pat e ++ findFilesList dirPath pat rest

/-- findFiles on a single directory entry. -/
def findFilesOne (dirPath : String) (pat : String → Bool) :
    DirTree → List (String × String)
  | DirTree.file n c =>
    if strStartsWith n (".") || n = "node_modules" then []
    else if pat n then [(dirPath ++ "/" ++ n, c)] else []
  | DirTree.dir n cs =>
    if strStartsWith n (".") || n = "node_modules" then []
    else findFilesList (dirPath ++ "/" ++ n) pat cs

end

/-- hasAgentFrontmatter: the content opens with a `---` line, a later line
`---` closes the block, and the block contains `tools` or `model`
case-insensitively. The non-greedy regex takes the first closing fence,
which is the first piece of `splitOn`. -/
def hasAgentFrontmatter (content : String) : Bool :=
  if ¬ strStartsWith content ("---\n") then false
  else
    let rest := strDropN content 4
    match firstSubIdx ("\n---").data rest.data with
    | none => false
    | some i =>
      let block := toLowerStr (String.mk (rest.data.take i))
      containsStr block ("tools") || containsStr block ("model")

/-- createAsset: relative path from the source root, display name from the
basename with the extension stripped. -/
def createAsset (repoPath fullPath : String) (type : AssetType) : Asset :=
  let relativePath :=
    if strStartsWith fullPath (repoPath ++ "/") then strDropN fullPath (repoPath.length + 1)
    else fullPath
  ⟨type, relativePath, basenameMinus fullPath (extname fullPath)⟩

/-- First directory child with the given name, modelling the
`existsSync(join(repoPath, name))` check plus the later readdir. -/
def dirChild (entries : List DirTree) (name : String) : Option (List DirTree) :=
  match entries with
  | [] => none
  | DirTree.dir n cs :: rest => if n = name then some cs else dirChild rest name
  | DirTree.file _ _ :: rest => dirChild rest name

/-- detectAgents of packages/core/src/detection.ts (the findFiles-based
snapshot): `.md` files under the TOP-LEVEL `agents` directory, plus `.md`
files elsewhere whose frontmatter names `tools` or `model`; any file whose
full path contains `/agents/` is excluded from the frontmatter pass. -/
def detectAgents (repoPath : String) (root : List DirTree) : List Asset :=
  let fromAgentsDir :=
    match dirChild root ("agents") with
    | some cs =>
      (findFilesList (repoPath ++ "/agents") mdPat cs).map
        (fun pc => createAsset repoPath pc.1 AssetType.agent)
    | none => []
  let rootMdFiles := findFilesList repoPath mdPat root
  let fromFrontmatter :=
    (rootMdFiles.filter
      (fun pc => ¬ containsStr pc.1 ("/agents/") && hasAgentFrontmatter pc.2)).map
      (fun pc => createAsset repoPath pc.1 AssetType.agent)
  fromAgentsDir ++ fromFrontmatter

/-! The glob-based snapshot works on paths relative to the root. -/

mutual

/-- All files of a forest as (segment list, content) pairs, in traversal
order. -/
def treeFilesList : List DirTree → List (List String × String)
  | [] => []
  | e :: rest => treeFilesOne e ++ treeFilesList rest

/-- All files of one entry as (segment list, content) pairs. -/
def treeFilesOne : DirTree → List (List String × String)
  | DirTree.file n c => [([n], c)]
  | DirTree.dir n cs => (treeFilesList cs).map (fun pc => (n :: pc.1, pc.2))

end

/-- The shared ignore set of the glob calls (`**/node_modules/**`,
`**/.*/**`, and the default refusal of dot segments): no segment may be
hidden and no directory segment may be `node_modules`. -/
def globVisible (segs : List String) : Bool :=
  segs.all (fun s => ¬ strStartsWith s (".")) && segs.dropLast.all (fun s => s ≠ "node_modules")

/-- Match of `**/agents/**/*.md`: some directory segment is literally
`agents` and the filename ends in `.md` (case-sensitive, as glob is). -/
def agentsGlobMatch (segs : List String) : Bool :=
  segs.dropLast.any (fun s => s = "agents") && strEndsWith (segs.getLastD ("")) (".md")

/-- Deduplicating fold over candidate files, the model of the shared
`seenPaths` set: keep the first occurrence of each relative path. -/
def dedupAssets (mk : List String × String → Asset) :
    List (List String × String) → List String → List String × List Asset
  | [], seen => (seen, [])
  | pc :: rest, seen =>
    let rel := joinSegs pc.1
    if rel ∈ seen then dedupAssets mk rest seen
    else
      let r := dedupAssets mk rest (seen ++ [rel])
      (r.1, mk pc :: r.2)

/-- Asset construction of the glob snapshot (relative path plus basename
derived display name). -/
def globAsset (type : AssetType) (pc : List String × String) : Asset :=
  let rel := joinSegs pc.1
  ⟨type, rel, basenameMinus rel (extname rel)⟩

/-- detectAgents of the glob-based detection snapshot: `.md` files under an
`agents` segment at ANY depth, then `.md` files outside `agents` segments
with agent frontmatter, deduplicated by relative path across both passes. -/
def detectAgentsGlob (root : List DirTree) : List Asset :=
  let all := treeFilesList root
  let agentFiles := all.filter (fun pc => globVisible pc.1 && agentsGlobMatch pc.1)
  let firstPass := dedupAssets (globAsset AssetType.agent) agentFiles []
  let mdOutside := all.filter
    (fun pc => globVisible pc.1 && strEndsWith (pc.1.getLastD ("")) (".md")
      && ¬ pc.1.dropLast.any (fun s => s = "agents") && hasAgentFrontmatter pc.2)
  let secondPass := dedupAssets (globAsset AssetType.agent) mdOutside firstPass.1
  firstPass.2 ++ secondPass.2

/-! ## General lemmas about the list operations of the embedding -/

theorem upsertBy_self_mem (pred : α → Bool) (a : α) :
    ∀ l : List α, a ∈ upsertBy pred a l := by
  intro l
  induction l with
  | nil => simp [upsertBy]
  | cons x xs ih =>
    by_cases h : pred x
    · simp [upsertBy, h]
    · simp only [upsertBy, h]
      exact List.mem_cons.mpr (Or.inr ih)

theorem addSelection_repositories (cfg : CcmConfig) (sel : Selection) :
    (addSelection cfg sel).repositories = cfg.repositories := rfl

theorem addSelection_mem (cfg : CcmConfig) (sel : Selection) :
    sel ∈ (addSelection cfg sel).selections :=
  upsertBy_self_mem _ sel cfg.selections

theorem removeFirst_some_length (pred : α → Bool) :
    ∀ (l : List α) (x : α) (rest : List α),
      removeFirst pred l = some (x, rest) → rest.length + 1 = l.length := by
  intro l
  induction l with
  | nil => intro x rest h; simp [removeFirst] at h
  | cons y ys ih =>
    intro x rest h
    by_cases hp : pred y
    · simp [removeFirst, hp] at h
      rw [← h.2]
      simp
    · simp only [removeFirst, hp, Bool.false_eq_true, if_false, Option.map_eq_some'] at h
      obtain ⟨⟨x1, rest1⟩, h1, h2⟩ := h
      have := ih x1 rest1 h1
      cases h2
      simp
      omega

theorem removeFirst_eq_none (pred : α → Bool) :
    ∀ l : List α, removeFirst pred l = none ↔ ∀ x ∈ l, pred x = false := by
  intro l
  induction l with
  | nil => simp [removeFirst]
  | cons y ys ih =>
    by_cases hp : pred y
    · simp [removeFirst, hp]
    · simp [removeFirst, hp, ih]

theorem lookup_filter_ne (k : String) (l : List (String × String)) :
    (l.filter (fun e => e.1 ≠ k)).lookup k = none := by
  induction l with
  | nil => simp
  | cons e rest ih =>
    obtain ⟨k1, v1⟩ := e
    by_cases h : k1 = k
    · simpa [List.filter_cons, h] using ih
    · have hne : (k == k1) = false := by
        simp only [beq_eq_false_iff_ne, ne_eq]
        exact fun hh => h hh.symm
      simp only [List.filter_cons]
      have hd : (decide ((k1, v1).1 ≠ k)) = true := by simp [h]
      rw [hd]
      simpa [List.lookup, hne] using ih

theorem isFile_writeFileAt (fs : Fs) (p : String) : (fs.writeFileAt p).isFile p = true := by
  by_cases h : p ∈ fs.files <;> simp [Fs.writeFileAt, Fs.isFile, h]

/-! ## Claim C6 -/

/-- C6: sync computes the merged config, writes it at the fixed output path,
and clears the staged entries exactly when the write succeeds; when the
write fails the registry document, staged entries included, is returned
untouched, so the operation is retryable. -/
theorem c6_sync_clears_staged_only_on_successful_write
    (cfg : CcmConfig) (fs : Fs) (jsonOf : String → Option McpCfg) :
    (syncMcp cfg fs jsonOf false).1 = cfg ∧
    (syncMcp cfg fs jsonOf false).2.2 = none ∧
    (syncMcp cfg fs jsonOf true).1.stagedMcp = [] ∧
    (syncMcp cfg fs jsonOf true).2.1.isFile getMcpConfigPath = true ∧
    (syncMcp cfg fs jsonOf true).2.2 = some (buildMcpConfig cfg fs jsonOf) := by
  refine ⟨rfl, rfl, rfl, ?_, rfl⟩
  exact isFile_writeFileAt (fs.mkdirAt getClaudeDir) getMcpConfigPath

/-! ## Claim C8 -/

/-- C8 counterexample: from a registry state that already holds the staged
key twice (such a store document loads verbatim), staging the same key twice
is a no-op on both calls and the state keeps two entries of the key, not
exactly one. -/
def c8dupCfg : CcmConfig :=
  ⟨[], [], [⟨"a", "m.json", "s"⟩, ⟨"a", "m.json", "s"⟩]⟩

theorem c8_counterexample :
    countStaged
      (stageMcpServer (stageMcpServer c8dupCfg ("a") ("m.json") ("s")) ("a") ("m.json") ("s"))
      ("a") ("m.json") ("s") = 2 := by
  decide

/-- C8 amended: staging the same key twice is idempotent (the second call
returns the document unchanged); staging never duplicates an already-present
key; and from any state holding no entry of the key, staging twice yields
exactly one entry of the key. -/
theorem c8_stage_idempotent (cfg : CcmConfig) (a p n : String) :
    stageMcpServer (stageMcpServer cfg a p n) a p n = stageMcpServer cfg a p n ∧
    countStaged (stageMcpServer cfg a p n) a p n
      = (if countStaged cfg a p n = 0 then 1 else countStaged cfg a p n) ∧
    (countStaged cfg a p n = 0 →
      countStaged (stageMcpServer (stageMcpServer cfg a p n) a p n) a p n = 1) := by
  have hstep : ∀ cfg2 : CcmConfig,
      cfg2.stagedMcp.any (fun s => s.repoAlias = a && s.assetPath = p && s.serverName = n) = true →
      stageMcpServer cfg2 a p n = cfg2 := by
    intro cfg2 h2
    simp only [stageMcpServer]
    exact if_pos h2
  have hstep2 : ∀ cfg2 : CcmConfig,
      cfg2.stagedMcp.any (fun s => s.repoAlias = a && s.assetPath = p && s.serverName = n) = false →
      stageMcpServer cfg2 a p n = { cfg2 with stagedMcp := cfg2.stagedMcp ++ [⟨a, p, n⟩] } := by
    intro cfg2 h2
    simp only [stageMcpServer]
    rw [if_neg]
    simp [h2]
  by_cases h : cfg.stagedMcp.any (fun s => s.repoAlias = a && s.assetPath = p && s.serverName = n) = true
  · have hs : stageMcpServer cfg a p n = cfg := hstep cfg h
    have hpos : 0 < countStaged cfg a p n := by
      rw [List.any_eq_true] at h
      obtain ⟨x, hx, hpx⟩ := h
      exact List.countP_pos_iff.mpr ⟨x, hx, hpx⟩
    refine ⟨by rw [hs, hs], ?_, ?_⟩
    · rw [hs, if_neg (by omega)]
    · intro h0; omega
  · have hf : cfg.stagedMcp.any
        (fun s => s.repoAlias = a && s.assetPath = p && s.serverName = n) = false := by
      simpa using h
    have hs : stageMcpServer cfg a p n = { cfg with stagedMcp := cfg.stagedMcp ++ [⟨a, p, n⟩] } :=
      hstep2 cfg hf
    have hzero : countStaged cfg a p n = 0 := by
      rw [List.any_eq_false] at hf
      exact List.countP_eq_zero.mpr (fun x hx => by simpa using hf x hx)
    have hone : countStaged (stageMcpServer cfg a p n) a p n = 1 := by
      unfold countStaged at hzero ⊢
      rw [hs]
      simp only [List.countP_append, hzero, List.countP_cons, List.countP_nil]
      simp
    have hany2 : (stageMcpServer cfg a p n).stagedMcp.any
        (fun s => s.repoAlias = a && s.assetPath = p && s.serverName = n) = true := by
      rw [hs, List.any_eq_true]
      exact ⟨⟨a, p, n⟩, by simp, by simp⟩
    have hidem : stageMcpServer (stageMcpServer cfg a p n) a p n = stageMcpServer cfg a p n :=
      hstep _ hany2
    refine ⟨hidem, ?_, fun _ => by rw [hidem, hone]⟩
    rw [hone, hzero]
    simp

/-- C8 witness: a concrete run of the amended statement at an empty state. -/
theorem c8_witness :
    countStaged (⟨[], [], []⟩ : CcmConfig) ("a") ("m.json") ("s") = 0 ∧
    countStaged
      (stageMcpServer (stageMcpServer (⟨[], [], []⟩ : CcmConfig) ("a") ("m.json") ("s"))
        ("a") ("m.json") ("s")) ("a") ("m.json") ("s") = 1 :=
  ⟨by decide,
   (c8_stage_idempotent ⟨[], [], []⟩ ("a") ("m.json") ("s")).2.2 (by decide)⟩

/-! ## Claim C10 -/

/-- C10: loadConfig normalizes every parsed repository record before any
other logic (the legacy migration included) runs on the document: a record
without the registryType field becomes a GitHub record with every other
field kept, and a record carrying the field passes through unchanged. -/
theorem c10_registry_type_normalized_on_load
    (raw : RawConfig) (fs : Fs) (r : RawRepository) :
    (loadConfigPure raw fs
      = ((migrateLegacyAliases
            (CcmConfig.mk ((raw.repositories.getD []).map normalizeRepo)
              (raw.selections.getD []) (raw.stagedMcp.getD [])) fs).2.1,
         (migrateLegacyAliases
            (CcmConfig.mk ((raw.repositories.getD []).map normalizeRepo)
              (raw.selections.getD []) (raw.stagedMcp.getD [])) fs).2.2)) ∧
    (r.registryType = none →
      normalizeRepo r
        = ⟨r.aliasName, "github", r.url, r.localPath, r.owner, r.repo, r.assets, r.updatedAt⟩) ∧
    (∀ t, r.registryType = some t →
      normalizeRepo r
        = ⟨r.aliasName, t, r.url, r.localPath, r.owner, r.repo, r.assets, r.updatedAt⟩) := by
  refine ⟨rfl, ?_, ?_⟩
  · intro h
    simp [normalizeRepo, h]
  · intro t h
    simp [normalizeRepo, h]

/-- C10 witness: the normalization evaluated on a record without the field
and on a record carrying it. -/
theorem c10_witness :
    normalizeRepo ⟨"a", none, "u", "lp", "o", "r", [], "t"⟩
      = ⟨"a", "github", "u", "lp", "o", "r", [], "t"⟩ ∧
    normalizeRepo ⟨"a", some "local", "u", "lp", "o", "r", [], "t"⟩
      = ⟨"a", "local", "u", "lp", "o", "r", [], "t"⟩ :=
  ⟨(c10_registry_type_normalized_on_load ⟨none, none, none⟩ ⟨[], [], []⟩
      ⟨"a", none, "u", "lp", "o", "r", [], "t"⟩).2.1 rfl,
   (c10_registry_type_normalized_on_load ⟨none, none, none⟩ ⟨[], [], []⟩
      ⟨"a", some "local", "u", "lp", "o", "r", [], "t"⟩).2.2 "local" rfl⟩

/-! ## Claim C9 -/

/-- C9: removing the selection record of a config-bundle ("mcp") selection
through unlinkAsset deletes the record from the registry, yet the call
returns the same "not found" signal (false) as when no selection exists, and
performs no filesystem change, so the caller cannot tell the two cases
apart. -/
theorem c9_unlink_mcp_returns_not_found
    (cfg : CcmConfig) (fs : Fs) (a p : String) (sel : Selection)
    (hfound : (removeSelection cfg a p).2 = some sel)
    (hmcp : sel.type = AssetType.mcp) :
    unlinkAsset cfg fs a p = ((removeSelection cfg a p).1, fs, false) ∧
    (removeSelection cfg a p).1.selections.length + 1 = cfg.selections.length ∧
    (∀ cfg2 fs2 a2 p2, (removeSelection cfg2 a2 p2).2 = none →
      unlinkAsset cfg2 fs2 a2 p2 = (cfg2, fs2, false)) := by
  have hx : ∃ rest,
      removeFirst (fun s => s.repoAlias = a && s.assetPath = p) cfg.selections
        = some (sel, rest) := by
    unfold removeSelection at hfound
    rcases h2 : removeFirst (fun s => s.repoAlias = a && s.assetPath = p) cfg.selections
      with _ | ⟨x, rest⟩
    · rw [h2] at hfound
      simp at hfound
    · rw [h2] at hfound
      simp at hfound
      exact ⟨rest, by rw [h2, hfound]⟩
  obtain ⟨rest, hrf⟩ := hx
  refine ⟨?_, ?_, ?_⟩
  · unfold unlinkAsset removeSelection
    rw [hrf]
    simp [hmcp]
  · unfold removeSelection
    rw [hrf]
    simpa using removeFirst_some_length _ cfg.selections sel rest hrf
  · intro cfg2 fs2 a2 p2 hnone
    unfold removeSelection at hnone
    unfold unlinkAsset removeSelection
    rcases h2 : removeFirst (fun s => s.repoAlias = a2 && s.assetPath = p2) cfg2.selections
      with _ | r
    · rw [h2]
    · rw [h2] at hnone
      simp at hnone

/-- C9 witness: concrete registry with a stored mcp selection. -/
def c9cfg : CcmConfig :=
  ⟨[], [⟨"t", "mcp.json", AssetType.mcp, ""⟩], []⟩

theorem c9_witness :
    (removeSelection c9cfg ("t") ("mcp.json")).2
      = some ⟨"t", "mcp.json", AssetType.mcp, ""⟩ ∧
    unlinkAsset c9cfg ⟨[], [], []⟩ ("t") ("mcp.json")
      = ((removeSelection c9cfg ("t") ("mcp.json")).1, ⟨[], [], []⟩, false) :=
  ⟨by decide,
   (c9_unlink_mcp_returns_not_found c9cfg ⟨[], [], []⟩ ("t") ("mcp.json")
      ⟨"t", "mcp.json", AssetType.mcp, ""⟩ (by decide) rfl).1⟩

/-! ## Claim C7 -/

/-- C7: linkAsset fails with the repository NotFound error when the source
alias is unregistered, fails with the asset NotFound error when the relative
path is absent under the source directory, and rejects every config-bundle
(mcp) asset; each failure is an `Except.error`, so no selection record and
no symlink is produced in these cases. -/
theorem c7_link_failure_modes (cfg : CcmConfig) (fs : Fs) (a : String) (asset : Asset) :
    (getRepository cfg a = none →
      linkAsset cfg fs a asset = Except.error ("Repository not found: " ++ a)) ∧
    (∀ repo, getRepository cfg a = some repo → asset.type = AssetType.mcp →
      linkAsset cfg fs a asset
        = Except.error
            ("MCP assets should be staged using stageMcpServers() instead of linkAsset()")) ∧
    (∀ repo, getRepository cfg a = some repo → asset.type ≠ AssetType.mcp →
      fs.existsSync (repo.localPath ++ "/" ++ asset.path) = false →
      linkAsset cfg fs a asset
        = Except.error ("Asset not found: " ++ (repo.localPath ++ "/" ++ asset.path))) := by
  refine ⟨?_, ?_, ?_⟩
  · intro h
    unfold linkAsset
    rw [h]
  · intro repo h hmcp
    unfold linkAsset
    rw [h]
    simp [hmcp]
  · intro repo h hmcp hsrc
    unfold linkAsset
    rw [h]
    simp [hmcp, hsrc]

/-- C7 witness: the three failure modes evaluated on concrete states. -/
def c7cfg : CcmConfig :=
  ⟨[⟨"t", "github", "u", "/r/t", "o", "r", [], "ts"⟩], [], []⟩

theorem c7_witness :
    linkAsset c7cfg ⟨[], [], []⟩ ("x") ⟨AssetType.agent, "agents/a.md", "a"⟩
      = Except.error ("Repository not found: x") ∧
    linkAsset c7cfg ⟨[], [], []⟩ ("t") ⟨AssetType.mcp, "mcp.json", "mcp"⟩
      = Except.error
          ("MCP assets should be staged using stageMcpServers() instead of linkAsset()") ∧
    linkAsset c7cfg ⟨[], [], []⟩ ("t") ⟨AssetType.agent, "agents/a.md", "a"⟩
      = Except.error ("Asset not found: /r/t/agents/a.md") :=
  ⟨(c7_link_failure_modes c7cfg ⟨[], [], []⟩ ("x") ⟨AssetType.agent, "agents/a.md", "a"⟩).1
      (by decide),
   (c7_link_failure_modes c7cfg ⟨[], [], []⟩ ("t") ⟨AssetType.mcp, "mcp.json", "mcp"⟩).2.1
      ⟨"t", "github", "u", "/r/t", "o", "r", [], "ts"⟩ (by decide) rfl,
   by
    have := (c7_link_failure_modes c7cfg ⟨[], [], []⟩ ("t")
        ⟨AssetType.agent, "agents/a.md", "a"⟩).2.2
      ⟨"t", "github", "u", "/r/t", "o", "r", [], "ts"⟩ (by decide) (by decide) (by decide)
    simpa using this⟩

/-! ## Claim C2 -/

/-- C2 counterexample data: one registered source with one linked selection
whose symlink lives under the link target root, outside the source clone
directory. -/
def c2repo : Repository := ⟨"t", "github", "u", "/r/t", "o", "r", [], "ts"⟩

def c2cfg : CcmConfig :=
  ⟨[c2repo], [⟨"t", "agents/a.md", AssetType.agent, "/c/agents/t-a.md"⟩],
   [⟨"t", "mcp.json", "s"⟩]⟩

def c2fs : Fs :=
  ⟨["/r/t/agents/a.md"], [("/c/agents/t-a.md", "/r/t/agents/a.md")], ["/r/t", "/c/agents"]⟩

/-- C2 counterexample: removing the source deletes the selection and staged
records, but the on-disk symlink of the removed selection is still present
afterwards (removal only deletes the clone directory), contradicting the
claim that the selections' symlinks are removed. -/
theorem c2_counterexample :
    ((removeRepo c2cfg c2fs ("t")).map (fun r => r.1.selections.length)) = some 0 ∧
    ((removeRepo c2cfg c2fs ("t")).map (fun r => r.1.stagedMcp.length)) = some 0 ∧
    ((removeRepo c2cfg c2fs ("t")).map (fun r => r.2.1.isSymlink ("/c/agents/t-a.md")))
      = some true := by
  decide

/-- C2 amended: removing a registered source deletes every selection and
staged entry whose source alias matches and deletes the source clone
directory tree; the selections' on-disk symlinks under the link target
roots are NOT removed (every symlink outside the clone directory survives
and is left dangling). -/
theorem c2_remove_cascades_records_not_symlinks
    (cfg : CcmConfig) (fs : Fs) (a : String) (repo : Repository)
    (hrepo : getRepository cfg a = some repo) :
    ∃ cfg1 fs1,
      removeRepo cfg fs a = some (cfg1, fs1, repo, (getSelectionsForRepo cfg a).length) ∧
      (∀ s ∈ cfg1.selections, s.repoAlias ≠ a) ∧
      (∀ m ∈ cfg1.stagedMcp, m.repoAlias ≠ a) ∧
      (∀ e ∈ fs.symlinks, underPath repo.localPath e.1 = false → e ∈ fs1.symlinks) := by
  have hsome : removeFirst (fun r => r.aliasName = a) cfg.repositories ≠ none := by
    intro hn
    have hall := (removeFirst_eq_none _ cfg.repositories).mp hn
    have hp := List.find?_some hrepo
    have hm := List.mem_of_find?_eq_some hrepo
    have hfalse := hall repo hm
    rw [hfalse] at hp
    simp at hp
  obtain ⟨⟨x, rest⟩, hrf⟩ := Option.ne_none_iff_exists'.mp hsome
  have hrr : removeRepository cfg a
      = ({ repositories := rest,
           selections := cfg.selections.filter (fun s => s.repoAlias ≠ a),
           stagedMcp := cfg.stagedMcp.filter (fun s => s.repoAlias ≠ a) }, some x) := by
    unfold removeRepository
    rw [hrf]
  refine ⟨(removeRepository cfg a).1,
    (if fs.existsSync repo.localPath then fs.removeTree repo.localPath else fs), ?_, ?_, ?_, ?_⟩
  · unfold removeRepo
    rw [hrepo]
  · intro s hs
    rw [hrr] at hs
    simp only [List.mem_filter] at hs
    simpa using hs.2
  · intro m hm
    rw [hrr] at hm
    simp only [List.mem_filter] at hm
    simpa using hm.2
  · intro e he hout
    by_cases hex : fs.existsSync repo.localPath
    · simp only [hex, if_true]
      unfold Fs.removeTree
      simp only [List.mem_filter]
      exact ⟨he, by simp [hout]⟩
    · simp only [hex]
      simpa using he

/-- C2 witness: the amended statement run on the concrete state above. -/
theorem c2_witness :
    getRepository c2cfg ("t") = some c2repo ∧
    (∃ cfg1 fs1,
      removeRepo c2cfg c2fs ("t")
        = some (cfg1, fs1, c2repo, (getSelectionsForRepo c2cfg ("t")).length) ∧
      (∀ s ∈ cfg1.selections, s.repoAlias ≠ "t") ∧
      (∀ m ∈ cfg1.stagedMcp, m.repoAlias ≠ "t") ∧
      (∀ e ∈ c2fs.symlinks, underPath c2repo.localPath e.1 = false → e ∈ fs1.symlinks)) :=
  ⟨by decide,
   c2_remove_cascades_records_not_symlinks c2cfg c2fs ("t") c2repo (by decide)⟩

/-! ## Claim C4 -/

/-- A legacy alias contains no dot: the pattern test refuses one outright. -/
theorem legacy_no_dot (a : String) (h : isLegacyAliasFormat a = true) :
    hasChar a ('.') = false := by
  by_cases hd : hasChar a ('.')
  · rw [isLegacyAliasFormat, if_pos hd] at h
    exact absurd h (by simp)
  · simpa using hd

/-- A dotted alias is never in legacy format. -/
theorem not_legacy_of_dot (a : String) (h : hasChar a ('.') = true) :
    isLegacyAliasFormat a = false := by
  rw [isLegacyAliasFormat, if_pos h]

theorem hasChar_append (a b : String) (c : Char) :
    hasChar (a ++ b) c = (hasChar a c || hasChar b c) := by
  by_cases h1 : c ∈ a.data <;> by_cases h2 : c ∈ b.data <;>
    simp [hasChar, String.data_append, List.contains, List.elem_eq_mem, h1, h2]

/-- The canonical alias always contains the dot separator. -/
theorem hasChar_generateNewAlias (o r : String) :
    hasChar (generateNewAlias o r) ('.') = true := by
  unfold generateNewAlias
  rw [hasChar_append, hasChar_append]
  have : hasChar "." ('.') = true := by decide
  simp [this]

/-- Every final alias produced by the migration contains the dot. -/
theorem resolveFinalAlias_dot (repos : List Repository) (i : Nat) (o r : String) :
    hasChar (resolveFinalAlias repos i (generateNewAlias o r)) ('.') = true := by
  unfold resolveFinalAlias
  by_cases h : othersHaveAlias repos i (generateNewAlias o r)
  · rw [if_pos h, hasChar_append, hasChar_generateNewAlias]
    simp
  · rw [if_neg h]
    exact hasChar_generateNewAlias o r

theorem mem_mapSet (m : List (String × String)) (k v : String) (p : String × String)
    (h : p ∈ mapSet m k v) : p = (k, v) ∨ p ∈ m := by
  unfold mapSet at h
  by_cases ha : m.any (fun e => e.1 = k)
  · rw [if_pos ha] at h
    rw [List.mem_map] at h
    obtain ⟨q, hq, hqe⟩ := h
    by_cases hk : q.1 = k
    · left
      rw [← hqe]
      simp [hk]
    · right
      rw [← hqe]
      simpa [hk] using hq
  · rw [if_neg ha, List.mem_append] at h
    rcases h with h | h
    · right; exact h
    · left; simpa using h

theorem hasKey_mapSet_self (m : List (String × String)) (k v : String) :
    (mapSet m k v).any (fun p => p.1 = k) = true := by
  unfold mapSet
  by_cases ha : m.any (fun e => e.1 = k)
  · rw [if_pos ha, List.any_eq_true]
    rw [List.any_eq_true] at ha
    obtain ⟨e, he, hek⟩ := ha
    refine ⟨(k, v), List.mem_map.mpr ⟨e, he, ?_⟩, by simp⟩
    simp at hek
    simp [hek]
  · rw [if_neg ha, List.any_eq_true]
    exact ⟨(k, v), by simp, by simp⟩

theorem hasKey_mapSet_mono (m : List (String × String)) (k v k2 : String)
    (h : m.any (fun p => p.1 = k2) = true) :
    (mapSet m k v).any (fun p => p.1 = k2) = true := by
  rw [List.any_eq_true] at h
  obtain ⟨e, he, hek⟩ := h
  simp only [decide_eq_true_eq] at hek
  unfold mapSet
  by_cases ha : m.any (fun e => e.1 = k)
  · rw [if_pos ha, List.any_eq_true]
    by_cases hk : e.1 = k
    · exact ⟨(k, v), List.mem_map.mpr ⟨e, he, by simp [hk]⟩, by simp [← hk, hek]⟩
    · exact ⟨e, List.mem_map.mpr ⟨e, he, by simp [hk]⟩, by simp [hek]⟩
  · rw [if_neg ha, List.any_eq_true]
    exact ⟨e, List.mem_append_left _ he, by simp [hek]⟩

theorem hasKey_mappingStep_mono (repos : List Repository) (m : List (String × String))
    (i : Nat) (r : Repository) (k2 : String)
    (h : m.any (fun p => p.1 = k2) = true) :
    (mappingStep repos m i r).any (fun p => p.1 = k2) = true := by
  unfold mappingStep
  by_cases hc : r.registryType = "github" && isLegacyAliasFormat r.aliasName
  · rw [if_pos hc]
    exact hasKey_mapSet_mono _ _ _ _ h
  · rw [if_neg hc]
    exact h

theorem hasKey_computeMappingGo_mono (repos : List Repository) :
    ∀ (l : List Repository) (i : Nat) (m : List (String × String)) (k : String),
      m.any (fun p => p.1 = k) = true →
      (computeMappingGo repos i l m).any (fun p => p.1 = k) = true := by
  intro l
  induction l with
  | nil => intro i m k h; exact h
  | cons r rest ih =>
    intro i m k h
    exact ih (i + 1) _ k (hasKey_mappingStep_mono repos m i r k h)

theorem hasKey_computeMappingGo_of_mem (repos : List Repository) :
    ∀ (l : List Repository) (i : Nat) (m : List (String × String)) (r : Repository),
      r ∈ l → r.registryType = "github" → isLegacyAliasFormat r.aliasName = true →
      (computeMappingGo repos i l m).any (fun p => p.1 = r.aliasName) = true := by
  intro l
  induction l with
  | nil => intro i m r h; simp at h
  | cons x rest ih =>
    intro i m r hmem hgit hleg
    rcases List.mem_cons.mp hmem with heq | htail
    · subst heq
      show (computeMappingGo repos (i + 1) rest (mappingStep repos m i r)).any
          (fun p => p.1 = r.aliasName) = true
      apply hasKey_computeMappingGo_mono
      unfold mappingStep
      rw [if_pos (by simp [hgit, hleg])]
      exact hasKey_mapSet_self _ _ _
    · exact ih (i + 1) _ r htail hgit hleg

theorem value_dot_mappingStep (repos : List Repository) (m : List (String × String))
    (i : Nat) (r : Repository)
    (hm : ∀ q ∈ m, hasChar q.2 ('.') = true) :
    ∀ p ∈ mappingStep repos m i r, hasChar p.2 ('.') = true := by
  intro p hp
  unfold mappingStep at hp
  by_cases hc : r.registryType = "github" && isLegacyAliasFormat r.aliasName
  · rw [if_pos hc] at hp
    rcases mem_mapSet _ _ _ _ hp with he | he
    · rw [he]
      exact resolveFinalAlias_dot repos i r.owner r.repo
    · exact hm p he
  · rw [if_neg hc] at hp
    exact hm p hp

theorem value_dot_computeMappingGo (repos : List Repository) :
    ∀ (l : List Repository) (i : Nat) (m : List (String × String)),
      (∀ q ∈ m, hasChar q.2 ('.') = true) →
      ∀ p ∈ computeMappingGo repos i l m, hasChar p.2 ('.') = true := by
  intro l
  induction l with
  | nil => intro i m hm p hp; exact hm p hp
  | cons x rest ih =>
    intro i m hm p hp
    exact ih (i + 1) _ (value_dot_mappingStep repos m i x hm) p hp

theorem computeAliasMapping_value_dot (repos : List Repository) :
    ∀ p ∈ computeAliasMapping repos, hasChar p.2 ('.') = true :=
  value_dot_computeMappingGo repos repos 0 [] (by simp)

theorem lookup_some_of_hasKey (m : List (String × String)) (k : String)
    (h : m.any (fun p => p.1 = k) = true) : ∃ v, m.lookup k = some v := by
  induction m with
  | nil => simp at h
  | cons e rest ih =>
    obtain ⟨k1, v1⟩ := e
    by_cases hk : k1 = k
    · exact ⟨v1, by simp [List.lookup, hk]⟩
    · have hne : (k == k1) = false := by
        simp only [beq_eq_false_iff_ne, ne_eq]
        exact fun hh => hk hh.symm
      simp only [List.any_cons, Bool.or_eq_true] at h
      rcases h with h | h
    
      · exact absurd (by simpa using h) hk
      · obtain ⟨v, hv⟩ := ih h
        exact ⟨v, by simp [List.lookup, hne, hv]⟩

theorem mem_of_lookup (m : List (String × String)) (k v : String)
    (h : m.lookup k = some v) : (k, v) ∈ m := by
  induction m with
  | nil => simp [List.lookup] at h
  | cons e rest ih =>
    obtain ⟨k1, v1⟩ := e
    by_cases hk : k = k1
    · have hbeq : (k == k1) = true := by simp [hk]
      simp only [List.lookup, hbeq, Option.some.injEq] at h
      rw [hk, ← h]
      exact List.mem_cons_self _ _
    · have hbeq : (k == k1) = false := by simp [hk]
      simp only [List.lookup, hbeq] at h
      exact List.mem_cons_of_mem _ (ih h)

/-- New alias of a record under the migration mapping. -/
def migratedAlias (mapping : List (String × String)) (a : String) : String :=
  match mapping.lookup a with
  | some v => v
  | none => a

theorem migrateRepos_alias_shape (mapping : List (String × String)) :
    ∀ (l : List Repository) (fs : Fs) (r2 : Repository),
      r2 ∈ (migrateRepos mapping l fs).1 →
      ∃ r0, r0 ∈ l ∧ r2.aliasName = migratedAlias mapping r0.aliasName := by
  intro l
  induction l with
  | nil =>
    intro fs r2 h
    simp [migrateRepos] at h
  | cons r rest ih =>
    intro fs r2 h
    unfold migrateRepos at h
    cases hlk : mapping.lookup r.aliasName with
    | none =>
      rw [hlk] at h
      simp only [List.mem_cons] at h
      rcases h with heq | htail
      · exact ⟨r, List.mem_cons_self _ _, by rw [heq]; simp [migratedAlias, hlk]⟩
      · obtain ⟨r0, hr0, he⟩ := ih _ r2 htail
        exact ⟨r0, List.mem_cons_of_mem _ hr0, he⟩
    | some newA =>
      rw [hlk] at h
      simp only [List.mem_cons] at h
      rcases h with heq | htail
      · refine ⟨r, List.mem_cons_self _ _, ?_⟩
        rw [heq]
        simp only [migratedAlias, hlk]
        split
        · rfl
        · split <;> rfl
      · obtain ⟨r0, hr0, he⟩ := ih _ r2 htail
        exact ⟨r0, List.mem_cons_of_mem _ hr0, he⟩

/-- Distinct characters separate strings. -/
theorem ne_of_dot (x y : String) (hx : hasChar x ('.') = true)
    (hy : hasChar y ('.') = false) : x ≠ y := by
  intro he
  rw [he, hy] at hx
  exact absurd hx (by simp)

/-- C4 amended: on load, every GitHub source whose alias matches the legacy
pattern is rewritten to a canonical dotted alias (the collision suffix is
chosen against the other sources' pre-migration aliases, so two sources
migrating to the same canonical alias in one load can collide; uniqueness is
not guaranteed), and every selection and staged entry keyed to the old alias
is rekeyed to the new alias, alias-derived `alias-` substrings inside
materialized link paths included; afterwards no repository, selection or
staged entry carries the old alias. -/
theorem c4_legacy_migration_rekeys (cfg : CcmConfig) (fs : Fs) (r : Repository)
    (hmem : r ∈ cfg.repositories)
    (hgit : r.registryType = "github")
    (hleg : isLegacyAliasFormat r.aliasName = true) :
    ∃ newA,
      (computeAliasMapping cfg.repositories).lookup r.aliasName = some newA ∧
      hasChar newA ('.') = true ∧
      isLegacyAliasFormat newA = false ∧
      (migrateLegacyAliases cfg fs).1 = true ∧
      (migrateLegacyAliases cfg fs).2.1.selections
        = cfg.selections.map (rewriteSelection (computeAliasMapping cfg.repositories)) ∧
      (migrateLegacyAliases cfg fs).2.1.stagedMcp
        = cfg.stagedMcp.map (rewriteStaged (computeAliasMapping cfg.repositories)) ∧
      (∀ s ∈ cfg.selections, s.repoAlias = r.aliasName →
        (rewriteSelection (computeAliasMapping cfg.repositories) s).repoAlias = newA ∧
        (rewriteSelection (computeAliasMapping cfg.repositories) s).linkedPath
          = (if containsStr s.linkedPath s.repoAlias
             then strReplace s.linkedPath (s.repoAlias ++ "-") (newA ++ "-")
             else s.linkedPath)) ∧
      (∀ st ∈ cfg.stagedMcp, st.repoAlias = r.aliasName →
        (rewriteStaged (computeAliasMapping cfg.repositories) st).repoAlias = newA) ∧
      (∀ s2 ∈ (migrateLegacyAliases cfg fs).2.1.selections, s2.repoAlias ≠ r.aliasName) ∧
      (∀ st2 ∈ (migrateLegacyAliases cfg fs).2.1.stagedMcp, st2.repoAlias ≠ r.aliasName) ∧
      (∀ r2 ∈ (migrateLegacyAliases cfg fs).2.1.repositories, r2.aliasName ≠ r.aliasName) := by
  have hkey : (computeAliasMapping cfg.repositories).any (fun p => p.1 = r.aliasName) = true :=
    hasKey_computeMappingGo_of_mem cfg.repositories cfg.repositories 0 [] r hmem hgit hleg
  obtain ⟨newA, hlk⟩ := lookup_some_of_hasKey _ _ hkey
  have hdot : hasChar newA ('.') = true :=
    computeAliasMapping_value_dot cfg.repositories (r.aliasName, newA) (mem_of_lookup _ _ _ hlk)
  have holddot : hasChar r.aliasName ('.') = false := legacy_no_dot _ hleg
  have hne : newA ≠ r.aliasName := ne_of_dot _ _ hdot holddot
  have hmapne : ¬ (computeAliasMapping cfg.repositories).isEmpty = true := by
    intro hemp
    rw [List.isEmpty_iff] at hemp
    rw [hemp] at hlk
    simp [List.lookup] at hlk
  have hmig : migrateLegacyAliases cfg fs
      = (true,
         { repositories := (migrateRepos (computeAliasMapping cfg.repositories)
             cfg.repositories fs).1,
           selections := cfg.selections.map
             (rewriteSelection (computeAliasMapping cfg.repositories)),
           stagedMcp := cfg.stagedMcp.map
             (rewriteStaged (computeAliasMapping cfg.repositories)) },
         (migrateRepos (computeAliasMapping cfg.repositories) cfg.repositories fs).2) := by
    unfold migrateLegacyAliases
    rw [if_neg hmapne]
  refine ⟨newA, hlk, hdot, not_legacy_of_dot _ hdot, by rw [hmig], by rw [hmig],
    by rw [hmig], ?_, ?_, ?_, ?_, ?_⟩
  · intro s _ hsa
    unfold rewriteSelection
    rw [hsa, hlk]
    exact ⟨rfl, rfl⟩
  · intro st _ hsa
    unfold rewriteStaged
    rw [hsa, hlk]
  · intro s2 hs2
    rw [hmig] at hs2
    simp only [List.mem_map] at hs2
    obtain ⟨s, _, hse⟩ := hs2
    rw [← hse]
    unfold rewriteSelection
    cases hlk2 : (computeAliasMapping cfg.repositories).lookup s.repoAlias with
    | none =>
      simp only []
      intro heq
      rw [heq, hlk] at hlk2
      simp at hlk2
    | some v2 =>
      simp only []
      have hv2 : hasChar v2 ('.') = true :=
        computeAliasMapping_value_dot cfg.repositories (s.repoAlias, v2)
          (mem_of_lookup _ _ _ hlk2)
      exact ne_of_dot _ _ hv2 holddot
  · intro st2 hst2
    rw [hmig] at hst2
    simp only [List.mem_map] at hst2
    obtain ⟨st, _, hse⟩ := hst2
    rw [← hse]
    unfold rewriteStaged
    cases hlk2 : (computeAliasMapping cfg.repositories).lookup st.repoAlias with
    | none =>
      simp only []
      intro heq
      rw [heq, hlk] at hlk2
      simp at hlk2
    | some v2 =>
      simp only []
      have hv2 : hasChar v2 ('.') = true :=
        computeAliasMapping_value_dot cfg.repositories (st.repoAlias, v2)
          (mem_of_lookup _ _ _ hlk2)
      exact ne_of_dot _ _ hv2 holddot
  · intro r2 hr2
    rw [hmig] at hr2
    simp only [] at hr2
    obtain ⟨r0, _, he⟩ := migrateRepos_alias_shape _ cfg.repositories fs r2 hr2
    rw [he]
    unfold migratedAlias
    cases hlk2 : (computeAliasMapping cfg.repositories).lookup r0.aliasName with
    | none =>
      simp only []
      intro heq
      rw [heq, hlk] at hlk2
      simp at hlk2
    | some v2 =>
      simp only []
      have hv2 : hasChar v2 ('.') = true :=
        computeAliasMapping_value_dot cfg.repositories (r0.aliasName, v2)
          (mem_of_lookup _ _ _ hlk2)
      exact ne_of_dot _ _ hv2 holddot

/-- C4 counterexample data: two legacy GitHub sources whose identities both
canonicalize to `o.r`. -/
def c4repoA : Repository :=
  ⟨"ab", "github", "u1", "/home/u/.local/share/ccm/repos/ab", "o", "r", [], "t"⟩

def c4repoB : Repository :=
  ⟨"cd", "github", "u2", "/home/u/.local/share/ccm/repos/cd", "O", "R", [], "t"⟩

def c4cfg : CcmConfig := ⟨[c4repoA, c4repoB], [], []⟩

/-- C4 counterexample: the collision check of the migration consults only
the pre-migration aliases of the other repositories, so both legacy sources
receive the same canonical alias `o.r` in one load and the resulting alias
list is not unique, against the collision-resolution part of the claim. -/
theorem c4_counterexample :
    ((migrateLegacyAliases c4cfg ⟨[], [], []⟩).2.1.repositories.map (fun r2 => r2.aliasName))
      = [("o.r"), ("o.r")] ∧
    ¬ ((migrateLegacyAliases c4cfg ⟨[], [], []⟩).2.1.repositories.map
        (fun r2 => r2.aliasName)).Nodup := by
  decide

/-- C4 witness data: one legacy source with a selection and a staged entry
keyed to it. -/
def c4wRepo : Repository :=
  ⟨"abcd", "github", "u", "/home/u/.local/share/ccm/repos/abcd", "own", "repo", [], "t"⟩

def c4wCfg : CcmConfig :=
  ⟨[c4wRepo],
   [⟨"abcd", "agents/a.md", AssetType.agent, "/home/u/.claude/agents/abcd-a.md"⟩],
   [⟨"abcd", "mcp.json", "gh"⟩]⟩

/-- C4 witness: the amended statement run on the concrete one-source state. -/
theorem c4_witness :
    c4wRepo ∈ c4wCfg.repositories ∧
    c4wRepo.registryType = "github" ∧
    isLegacyAliasFormat c4wRepo.aliasName = true ∧
    (∃ newA,
      (computeAliasMapping c4wCfg.repositories).lookup c4wRepo.aliasName = some newA ∧
      hasChar newA ('.') = true ∧
      isLegacyAliasFormat newA = false ∧
      (migrateLegacyAliases c4wCfg ⟨[], [], []⟩).1 = true ∧
      (migrateLegacyAliases c4wCfg ⟨[], [], []⟩).2.1.selections
        = c4wCfg.selections.map (rewriteSelection (computeAliasMapping c4wCfg.repositories)) ∧
      (migrateLegacyAliases c4wCfg ⟨[], [], []⟩).2.1.stagedMcp
        = c4wCfg.stagedMcp.map (rewriteStaged (computeAliasMapping c4wCfg.repositories)) ∧
      (∀ s ∈ c4wCfg.selections, s.repoAlias = c4wRepo.aliasName →
        (rewriteSelection (computeAliasMapping c4wCfg.repositories) s).repoAlias = newA ∧
        (rewriteSelection (computeAliasMapping c4wCfg.repositories) s).linkedPath
          = (if containsStr s.linkedPath s.repoAlias
             then strReplace s.linkedPath (s.repoAlias ++ "-") (newA ++ "-")
             else s.linkedPath)) ∧
      (∀ st ∈ c4wCfg.stagedMcp, st.repoAlias = c4wRepo.aliasName →
        (rewriteStaged (computeAliasMapping c4wCfg.repositories) st).repoAlias = newA) ∧
      (∀ s2 ∈ (migrateLegacyAliases c4wCfg ⟨[], [], []⟩).2.1.selections,
        s2.repoAlias ≠ c4wRepo.aliasName) ∧
      (∀ st2 ∈ (migrateLegacyAliases c4wCfg ⟨[], [], []⟩).2.1.stagedMcp,
        st2.repoAlias ≠ c4wRepo.aliasName) ∧
      (∀ r2 ∈ (migrateLegacyAliases c4wCfg ⟨[], [], []⟩).2.1.repositories,
        r2.aliasName ≠ c4wRepo.aliasName)) :=
  ⟨by decide, rfl, by decide,
   c4_legacy_migration_rekeys c4wCfg ⟨[], [], []⟩ c4wRepo (by decide) rfl (by decide)⟩

/-! ## Claim C5 -/

/-- Success payload of an Except value, for decidable statements. -/
def exceptOk : Except String α → Option α
  | Except.ok v => some v
  | Except.error _ => none

/-- Error payload of an Except value, for decidable statements. -/
def exceptErr : Except String α → Option String
  | Except.ok _ => none
  | Except.error m => some m

def c5cfg0 : CcmConfig := ⟨[], [], []⟩

def c5fs0 : Fs := ⟨[], [], []⟩

/-- Registry and filesystem after registering the first source `Foo/bar`. -/
def c5cfg1 : CcmConfig :=
  match registerRepository c5cfg0 c5fs0 ("Foo") ("bar") ("u1") with
  | Except.ok res => res.1
  | Except.error _ => c5cfg0

def c5fs1 : Fs :=
  match registerRepository c5cfg0 c5fs0 ("Foo") ("bar") ("u1") with
  | Except.ok res => res.2.1
  | Except.error _ => c5fs0

/-- C5 counterexample: the identities `Foo/bar` and `foo/bar` derive the same
base alias `foo.bar`, but registering the second one is rejected as a
duplicate registration (case-insensitive owner and name match) before alias
generation runs; it never yields `foo.bar2`. -/
theorem c5_counterexample :
    (exceptOk (registerRepository c5cfg0 c5fs0 ("Foo") ("bar") ("u1"))).map
        (fun res => res.2.2.aliasName) = some ("foo.bar") ∧
    exceptErr (registerRepository c5cfg1 c5fs1 ("foo") ("bar") ("u2"))
      = some ("Repository already registered as \"foo.bar\" (foo/bar)") := by
  decide

theorem natStr_two : natStr 2 = "2" := by decide

theorem upsertBy_no_match (pred : α → Bool) (a : α) :
    ∀ l : List α, (∀ x ∈ l, pred x = false) → upsertBy pred a l = l ++ [a] := by
  intro l
  induction l with
  | nil => intro _; rfl
  | cons x xs ih =>
    intro h
    have hx := h x (List.mem_cons_self _ _)
    simp only [upsertBy, hx, Bool.false_eq_true, if_false, List.cons_append, List.cons.injEq,
      true_and]
    exact ih (fun y hy => h y (List.mem_cons_of_mem _ hy))

theorem ne_of_length (a b : String) (h : a.length ≠ b.length) : a ≠ b :=
  fun he => h (congrArg String.length he)

theorem existsSync_false_of (fs : Fs) (p : String)
    (hf : p ∉ fs.files) (hd : p ∉ fs.dirs) (hl : fs.linkTarget p = none) :
    fs.existsSync p = false := by
  simp [Fs.existsSync, Fs.isFile, Fs.isDir, hf, hd, hl]

theorem mkdirAt_files (fs : Fs) (d : String) : (fs.mkdirAt d).files = fs.files := rfl

theorem mkdirAt_symlinks (fs : Fs) (d : String) : (fs.mkdirAt d).symlinks = fs.symlinks := rfl

theorem mkdirAt_dirs_not_mem (fs : Fs) (d p : String) (hp : p ∉ fs.dirs) (hne : p ≠ d) :
    p ∉ (fs.mkdirAt d).dirs := by
  unfold Fs.mkdirAt
  by_cases h : d ∈ fs.dirs
  · simpa [h] using hp
  · simp only [h, if_false]
    rw [List.mem_append]
    rintro (hc | hc)
    · exact hp hc
    · exact hne (by simpa using hc)

theorem mkdirAt_dirs_self (fs : Fs) (d : String) : d ∈ (fs.mkdirAt d).dirs := by
  unfold Fs.mkdirAt
  by_cases h : d ∈ fs.dirs <;> simp [h]

theorem mkdirAt_dirs_mono (fs : Fs) (d p : String) (hp : p ∈ fs.dirs) :
    p ∈ (fs.mkdirAt d).dirs := by
  unfold Fs.mkdirAt
  by_cases h : d ∈ fs.dirs <;> simp [h, hp]

/-- Length of a two-piece path `a ++ "/" ++ b`. -/
theorem length_path_append (a b : String) :
    ((a ++ "/") ++ b).length = a.length + 1 + b.length := by
  rw [String.length_append, String.length_append,
    show ("/" : String).length = 1 from rfl]

/-- Length of an appended suffix string. -/
theorem length_append_str (a b : String) : (a ++ b).length = a.length + b.length :=
  String.length_append a b

theorem existsSync_mkdirAt_mono (fs : Fs) (d p : String) (h : fs.existsSync p = true) :
    (fs.mkdirAt d).existsSync p = true := by
  unfold Fs.existsSync at h ⊢
  simp only [Bool.or_eq_true] at h ⊢
  rcases h with (hf | hd) | hl
  · exact Or.inl (Or.inl hf)
  · refine Or.inl (Or.inr ?_)
    unfold Fs.isDir at hd ⊢
    simp only [decide_eq_true_eq] at hd ⊢
    exact mkdirAt_dirs_mono fs d p hd
  · right
    have hsame : (fs.mkdirAt d).linkTarget p = fs.linkTarget p := rfl
    rw [hsame]
    cases hlt : fs.linkTarget p with
    | none => rw [hlt] at hl; simp at hl
    | some t =>
      rw [hlt] at hl
      simp only [Bool.or_eq_true] at hl ⊢
      rcases hl with hf | hd
      · exact Or.inl hf
      · refine Or.inr ?_
        unfold Fs.isDir at hd ⊢
        simp only [decide_eq_true_eq] at hd ⊢
        exact mkdirAt_dirs_mono fs d t hd

/-- Success equation of registerRepository when the duplicate check and the
occupied-directory check both pass. -/
theorem registerRepository_success (cfg : CcmConfig) (fs : Fs) (o r u : String)
    (hident : findExistingRepository cfg o r = none)
    (hex : (if fs.existsSync getReposDir then fs else fs.mkdirAt getReposDir).existsSync
        (getReposDir ++ "/" ++ generateAlias (cfg.repositories.map (fun x => x.aliasName)) o r)
        = false) :
    registerRepository cfg fs o r u = Except.ok
      (addRepository cfg
        ⟨generateAlias (cfg.repositories.map (fun x => x.aliasName)) o r, "github", u,
         getReposDir ++ "/" ++ generateAlias (cfg.repositories.map (fun x => x.aliasName)) o r,
         o, r, [], "t0"⟩,
       (if fs.existsSync getReposDir then fs else fs.mkdirAt getReposDir).mkdirAt
         (getReposDir ++ "/" ++ generateAlias (cfg.repositories.map (fun x => x.aliasName)) o r),
       ⟨generateAlias (cfg.repositories.map (fun x => x.aliasName)) o r, "github", u,
        getReposDir ++ "/" ++ generateAlias (cfg.repositories.map (fun x => x.aliasName)) o r,
        o, r, [], "t0"⟩) := by
  unfold registerRepository
  rw [hident]
  simp only [hex, Bool.false_eq_true, if_false]

/-- C5 amended: the registration pipeline rejects a second source whose
identity matches an already-registered one case-insensitively (so the
two-registration scenario of the claim requires distinct identities); for
two distinct identities deriving the same base alias, with the base and its
`2` variant unclaimed and the clone directories fresh, the registrations
yield the aliases base and base-2 in order of registration; and alias
generation in general appends the smallest counter at least 2 whose alias
is unused by any registered source. -/
theorem c5_alias_collision (cfg : CcmConfig) (fs : Fs) (o1 r1 o2 r2 u1 u2 : String)
    (hdist : ¬ (toLowerStr o1 = toLowerStr o2 ∧ toLowerStr r1 = toLowerStr r2))
    (hbase : generateNewAlias o1 r1 = generateNewAlias o2 r2)
    (hident1 : findExistingRepository cfg o1 r1 = none)
    (hident2 : findExistingRepository cfg o2 r2 = none)
    (hfree1 : generateNewAlias o1 r1 ∉ cfg.repositories.map (fun x => x.aliasName))
    (hfree2 : (generateNewAlias o1 r1 ++ "2") ∉ cfg.repositories.map (fun x => x.aliasName))
    (hp1f : (getReposDir ++ "/" ++ generateNewAlias o1 r1) ∉ fs.files)
    (hp1d : (getReposDir ++ "/" ++ generateNewAlias o1 r1) ∉ fs.dirs)
    (hp1l : fs.linkTarget (getReposDir ++ "/" ++ generateNewAlias o1 r1) = none)
    (hp2f : (getReposDir ++ "/" ++ (generateNewAlias o1 r1 ++ "2")) ∉ fs.files)
    (hp2d : (getReposDir ++ "/" ++ (generateNewAlias o1 r1 ++ "2")) ∉ fs.dirs)
    (hp2l : fs.linkTarget (getReposDir ++ "/" ++ (generateNewAlias o1 r1 ++ "2")) = none) :
    (∃ cfg1 fs1 rep1 cfg2 fs2 rep2,
      registerRepository cfg fs o1 r1 u1 = Except.ok (cfg1, fs1, rep1) ∧
      rep1.aliasName = generateNewAlias o1 r1 ∧
      registerRepository cfg1 fs1 o2 r2 u2 = Except.ok (cfg2, fs2, rep2) ∧
      rep2.aliasName = generateNewAlias o1 r1 ++ "2") ∧
    (∀ (existing : List String) (o r : String), generateNewAlias o r ∈ existing →
      ∃ k, 2 ≤ k ∧
        generateAlias existing o r = generateNewAlias o r ++ natStr k ∧
        (generateNewAlias o r ++ natStr k) ∉ existing ∧
        (∀ m, 2 ≤ m → m < k → (generateNewAlias o r ++ natStr m) ∈ existing)) := by
  constructor
  · -- the two-registration scenario
    have halias1 : generateAlias (cfg.repositories.map (fun x => x.aliasName)) o1 r1
        = generateNewAlias o1 r1 := by
      unfold generateAlias
      simp only [hfree1, if_false]
    have hP1rd : (getReposDir ++ "/" ++ generateNewAlias o1 r1) ≠ getReposDir := by
      apply ne_of_length
      rw [length_path_append]
      omega
    have hP2rd : (getReposDir ++ "/" ++ (generateNewAlias o1 r1 ++ "2")) ≠ getReposDir := by
      apply ne_of_length
      rw [length_path_append]
      omega
    have hP2P1 : (getReposDir ++ "/" ++ (generateNewAlias o1 r1 ++ "2"))
        ≠ (getReposDir ++ "/" ++ generateNewAlias o1 r1) := by
      apply ne_of_length
      rw [length_path_append, length_path_append, length_append_str,
        show ("2" : String).length = 1 from rfl]
      omega
    have hb2b : (generateNewAlias o1 r1 ++ "2") ≠ generateNewAlias o1 r1 := by
      apply ne_of_length
      rw [length_append_str, show ("2" : String).length = 1 from rfl]
      omega
    -- the intermediate filesystem of the first registration
    have hfs1a : ∀ q : String,
        q ∉ fs.files → q ∉ fs.dirs → fs.linkTarget q = none → q ≠ getReposDir →
        (if fs.existsSync getReposDir then fs else fs.mkdirAt getReposDir).existsSync q
          = false := by
      intro q hqf hqd hql hqrd
      by_cases hrd : fs.existsSync getReposDir
      · simp only [hrd, if_true]
        exact existsSync_false_of fs q hqf hqd hql
      · simp only [hrd, if_false]
        exact existsSync_false_of _ q hqf (mkdirAt_dirs_not_mem fs _ q hqd hqrd) hql
    have hex1 : (if fs.existsSync getReposDir then fs else fs.mkdirAt getReposDir).existsSync
        (getReposDir ++ "/" ++ generateAlias (cfg.repositories.map (fun x => x.aliasName)) o1 r1)
        = false := by
      rw [halias1]
      exact hfs1a _ hp1f hp1d hp1l hP1rd
    have hreg1 := registerRepository_success cfg fs o1 r1 u1 hident1 hex1
    rw [halias1] at hreg1
    -- shape of the registry after the first registration
    have hpredfalse : ∀ x ∈ cfg.repositories,
        (decide (x.aliasName = generateNewAlias o1 r1)) = false := by
      intro x hx
      simp only [decide_eq_false_iff_not]
      intro he
      exact hfree1 (List.mem_map.mpr ⟨x, hx, he⟩)
    have hadd : (addRepository cfg
        ⟨generateNewAlias o1 r1, "github", u1,
         getReposDir ++ "/" ++ generateNewAlias o1 r1, o1, r1, [], "t0"⟩).repositories
        = cfg.repositories ++
          [⟨generateNewAlias o1 r1, "github", u1,
            getReposDir ++ "/" ++ generateNewAlias o1 r1, o1, r1, [], "t0"⟩] := by
      unfold addRepository
      simp only []
      exact upsertBy_no_match _ _ cfg.repositories hpredfalse
    have hident2b : findExistingRepository
        (addRepository cfg
          ⟨generateNewAlias o1 r1, "github", u1,
           getReposDir ++ "/" ++ generateNewAlias o1 r1, o1, r1, [], "t0"⟩) o2 r2 = none := by
      unfold findExistingRepository
      rw [hadd]
      rw [List.find?_eq_none]
      intro x hx
      rcases List.mem_append.mp hx with hx1 | hx2
      · have := List.find?_eq_none.mp hident2 x hx1
        simpa using this
      · have hxe : x = ⟨generateNewAlias o1 r1, "github", u1,
            getReposDir ++ "/" ++ generateNewAlias o1 r1, o1, r1, [], "t0"⟩ := by
          simpa using hx2
        subst hxe
        simp only [Bool.and_eq_true, decide_eq_true_eq]
        rintro ⟨⟨_, h2⟩, h3⟩
        exact hdist ⟨h2, h3⟩
    have haliases1 : (addRepository cfg
        ⟨generateNewAlias o1 r1, "github", u1,
         getReposDir ++ "/" ++ generateNewAlias o1 r1, o1, r1, [], "t0"⟩).repositories.map
          (fun x => x.aliasName)
        = cfg.repositories.map (fun x => x.aliasName) ++ [generateNewAlias o1 r1] := by
      rw [hadd, List.map_append]
      rfl
    have hmem2 : generateNewAlias o1 r1 ∈ (addRepository cfg
        ⟨generateNewAlias o1 r1, "github", u1,
         getReposDir ++ "/" ++ generateNewAlias o1 r1, o1, r1, [], "t0"⟩).repositories.map
          (fun x => x.aliasName) := by
      rw [haliases1]
      simp
    have hnm2 : (generateNewAlias o1 r1 ++ natStr 2) ∉ (addRepository cfg
        ⟨generateNewAlias o1 r1, "github", u1,
         getReposDir ++ "/" ++ generateNewAlias o1 r1, o1, r1, [], "t0"⟩).repositories.map
          (fun x => x.aliasName) := by
      rw [natStr_two, haliases1, List.mem_append]
      rintro (hc | hc)
      · exact hfree2 hc
      · exact hb2b (by simpa using hc)
    have halias2 : generateAlias ((addRepository cfg
        ⟨generateNewAlias o1 r1, "github", u1,
         getReposDir ++ "/" ++ generateNewAlias o1 r1, o1, r1, [], "t0"⟩).repositories.map
          (fun x => x.aliasName)) o2 r2
        = generateNewAlias o1 r1 ++ "2" := by
      unfold generateAlias
      rw [← hbase]
      rw [if_pos hmem2]
      have hcnt : firstFreeCounter ((addRepository cfg
          ⟨generateNewAlias o1 r1, "github", u1,
           getReposDir ++ "/" ++ generateNewAlias o1 r1, o1, r1, [], "t0"⟩).repositories.map
            (fun x => x.aliasName)) (generateNewAlias o1 r1) 2
          (((addRepository cfg
            ⟨generateNewAlias o1 r1, "github", u1,
             getReposDir ++ "/" ++ generateNewAlias o1 r1, o1, r1, [], "t0"⟩).repositories.map
              (fun x => x.aliasName)).length + 1) = 2 := by
        rw [firstFreeCounter]
        rw [if_neg hnm2]
      rw [hcnt, natStr_two]
    have hexrd : ((if fs.existsSync getReposDir then fs
        else fs.mkdirAt getReposDir).mkdirAt
          (getReposDir ++ "/" ++ generateNewAlias o1 r1)).existsSync getReposDir = true := by
      by_cases hrd : fs.existsSync getReposDir
      · simp only [hrd, if_true]
        exact existsSync_mkdirAt_mono fs _ getReposDir hrd
      · simp only [hrd, if_false]
        apply existsSync_mkdirAt_mono
        have hdd : getReposDir ∈ (fs.mkdirAt getReposDir).dirs := mkdirAt_dirs_self fs getReposDir
        unfold Fs.existsSync Fs.isDir
        simp [hdd]
    have hex2 : (if ((if fs.existsSync getReposDir then fs
        else fs.mkdirAt getReposDir).mkdirAt
          (getReposDir ++ "/" ++ generateNewAlias o1 r1)).existsSync getReposDir then
            ((if fs.existsSync getReposDir then fs
              else fs.mkdirAt getReposDir).mkdirAt
                (getReposDir ++ "/" ++ generateNewAlias o1 r1))
          else ((if fs.existsSync getReposDir then fs
              else fs.mkdirAt getReposDir).mkdirAt
                (getReposDir ++ "/" ++ generateNewAlias o1 r1)).mkdirAt
                  getReposDir).existsSync
        (getReposDir ++ "/" ++ generateAlias ((addRepository cfg
          ⟨generateNewAlias o1 r1, "github", u1,
           getReposDir ++ "/" ++ generateNewAlias o1 r1, o1, r1, [], "t0"⟩).repositories.map
            (fun x => x.aliasName)) o2 r2) = false := by
      rw [halias2]
      simp only [hexrd, if_true]
      by_cases hrd : fs.existsSync getReposDir
      · simp only [hrd, if_true]
        exact existsSync_false_of _ _ hp2f (mkdirAt_dirs_not_mem fs _ _ hp2d hP2P1) hp2l
      · simp only [hrd, if_false]
        exact existsSync_false_of _ _ hp2f
          (mkdirAt_dirs_not_mem _ _ _ (mkdirAt_dirs_not_mem fs _ _ hp2d hP2rd) hP2P1) hp2l
    have hreg2 := registerRepository_success
      (addRepository cfg
        ⟨generateNewAlias o1 r1, "github", u1,
         getReposDir ++ "/" ++ generateNewAlias o1 r1, o1, r1, [], "t0"⟩)
      ((if fs.existsSync getReposDir then fs
        else fs.mkdirAt getReposDir).mkdirAt
          (getReposDir ++ "/" ++ generateNewAlias o1 r1))
      o2 r2 u2 hident2b hex2
    rw [halias2] at hreg2
    exact ⟨_, _, _, _, _, _, hreg1, rfl, hreg2, rfl⟩
  · intro existing o r h
    exact (generateAlias_spec existing o r).2 h

/-- C5 witness: two distinct identities, `a.b/c` and `a/b.c`, derive the same
base alias `a.b.c`; registering both from an empty state yields `a.b.c` and
then `a.b.c2`. -/
theorem c5_witness :
    (¬ (toLowerStr ("a.b") = toLowerStr ("a") ∧ toLowerStr ("c") = toLowerStr ("b.c"))) ∧
    generateNewAlias ("a.b") ("c") = generateNewAlias ("a") ("b.c") ∧
    ((∃ cfg1 fs1 rep1 cfg2 fs2 rep2,
      registerRepository ⟨[], [], []⟩ ⟨[], [], []⟩ ("a.b") ("c") ("u1")
        = Except.ok (cfg1, fs1, rep1) ∧
      rep1.aliasName = generateNewAlias ("a.b") ("c") ∧
      registerRepository cfg1 fs1 ("a") ("b.c") ("u2") = Except.ok (cfg2, fs2, rep2) ∧
      rep2.aliasName = generateNewAlias ("a.b") ("c") ++ "2") ∧
    (∀ (existing : List String) (o r : String), generateNewAlias o r ∈ existing →
      ∃ k, 2 ≤ k ∧
        generateAlias existing o r = generateNewAlias o r ++ natStr k ∧
        (generateNewAlias o r ++ natStr k) ∉ existing ∧
        (∀ m, 2 ≤ m → m < k → (generateNewAlias o r ++ natStr m) ∈ existing))) :=
  ⟨by decide, by decide,
   c5_alias_collision ⟨[], [], []⟩ ⟨[], [], []⟩ ("a.b") ("c") ("a") ("b.c") ("u1") ("u2")
     (by decide) (by decide) (by decide) (by decide) (by decide) (by decide)
     (by decide) (by decide) (by decide) (by decide) (by decide) (by decide)⟩

/-! ## Claim C3 -/

/-- C3 data: the nested-agents layout of the repository's own detection test
(deeply nested `claude/agents/deep-agent.md` plus a top-level
`agents/root-agent.md`, neither carrying frontmatter). -/
def c3tree : List DirTree :=
  [DirTree.dir ("claude") [DirTree.dir ("agents") [DirTree.file ("deep-agent.md") ("# Deep Agent")]],
   DirTree.dir ("agents") [DirTree.file ("root-agent.md") ("# Root Agent")]]

/-- C3: the detectAgents of packages/core/src/detection.ts only scans the
top-level agents directory, so the nested `claude/agents/deep-agent.md` is
not detected (its path even hits the `/agents/` exclusion of the
frontmatter pass); the glob-based detection snapshot of the repository,
which the detection test suite requires, detects both files. -/
theorem c3_nested_agents_detection :
    ((detectAgents ("/repo") c3tree).map (fun x => x.path)) = [("agents/root-agent.md")] ∧
    (("claude/agents/deep-agent.md") ∈ (detectAgentsGlob c3tree).map (fun x => x.path)) ∧
    (("agents/root-agent.md") ∈ (detectAgentsGlob c3tree).map (fun x => x.path)) := by
  decide

/-! ## Claim C1 -/

theorem existsSync_true_of_file (fs : Fs) (p : String) (h : p ∈ fs.files) :
    fs.existsSync p = true := by
  unfold Fs.existsSync Fs.isFile
  simp [h]

theorem mem_diagnose_healthy_of (cfg : CcmConfig) (fs : Fs) (s : Selection)
    (hs : s ∈ cfg.selections) (hnm : s.type ≠ AssetType.mcp)
    (hc : classify cfg fs s = ⟨s, true, none⟩) :
    (⟨s, true, none⟩ : LinkHealth) ∈ (diagnose cfg fs).healthy := by
  unfold diagnose
  apply List.mem_filter.mpr
  refine ⟨?_, by simp⟩
  rw [← hc]
  exact List.mem_map_of_mem _ (List.mem_filter.mpr ⟨hs, by simp [hnm]⟩)

theorem mem_diagnose_broken_of (cfg : CcmConfig) (fs : Fs) (s : Selection)
    (i : LinkHealthIssue) (hs : s ∈ cfg.selections) (hnm : s.type ≠ AssetType.mcp)
    (hc : classify cfg fs s = ⟨s, false, some i⟩) :
    (⟨s, false, some i⟩ : LinkHealth) ∈ (diagnose cfg fs).broken := by
  unfold diagnose
  apply List.mem_filter.mpr
  refine ⟨?_, by simp⟩
  rw [← hc]
  exact List.mem_map_of_mem _ (List.mem_filter.mpr ⟨hs, by simp [hnm]⟩)
/-- The link destination path computed by linkAsset for each linkable
asset kind; the mcp kind never reaches the link step, so its value here is
an unused placeholder. -/
def linkedTargetPath (a : String) (asset : Asset) : String :=
  match asset.type with
  | AssetType.skill =>
      getSkillsDir ++ "/" ++ getNamespacedFilename a asset.name ++ "/SKILL.md"
  | AssetType.agent =>
      getAgentsDir ++ "/"
        ++ (getNamespacedFilename a (basenameMinus asset.path (extname asset.path))
            ++ extname asset.path)
  | AssetType.command =>
      getCommandsDir ++ "/"
        ++ (getNamespacedFilename a (basenameMinus asset.path (extname asset.path))
            ++ extname asset.path)
  | AssetType.mcp => ""

theorem existsSync_addSymlink_self (fs : Fs) (p t : String) (ht : t ∈ fs.files) :
    (fs.addSymlink p t).existsSync p = true := by
  unfold Fs.existsSync Fs.isFile Fs.isDir Fs.linkTarget Fs.addSymlink
  simp [List.lookup, ht]

theorem isSymlink_addSymlink_self (fs : Fs) (p t : String) :
    (fs.addSymlink p t).isSymlink p = true := by
  unfold Fs.isSymlink Fs.linkTarget Fs.addSymlink
  simp [List.lookup]

theorem existsSync_unlink_target (fs : Fs) (p t : String)
    (hpf : p ∉ fs.files) (hpd : p ∉ fs.dirs) (hpt : p ≠ t) (htdd : t ∉ fs.dirs) :
    ((fs.addSymlink p t).unlink t).existsSync p = false := by
  unfold Fs.existsSync Fs.isFile Fs.isDir Fs.linkTarget Fs.unlink Fs.addSymlink
  simp only [List.filter_cons]
  have hkeep : (decide ((p, t).1 ≠ t)) = true := by simp [hpt]
  rw [hkeep]
  simp only [List.lookup, beq_self_eq_true]
  have h1 : p ∉ fs.files.filter (fun q => q ≠ t) := fun hm => hpf (List.mem_filter.mp hm).1
  have h2 : t ∉ fs.files.filter (fun q => q ≠ t) := by
    intro hm
    have := (List.mem_filter.mp hm).2
    simp at this
  simp [h1, h2, hpd, htdd, hpf]

theorem existsSync_unlink_self (fs : Fs) (p t : String)
    (hpf : p ∉ fs.files) (hpd : p ∉ fs.dirs) :
    ((fs.addSymlink p t).unlink p).existsSync p = false := by
  unfold Fs.existsSync Fs.isFile Fs.isDir Fs.linkTarget Fs.unlink Fs.addSymlink
  simp only [List.filter_cons]
  have hdrop : (decide ((p, t).1 ≠ p)) = false := by simp
  rw [hdrop]
  have hlk := lookup_filter_ne p fs.symlinks
  simp only [ne_eq, decide_not] at hlk
  have h1 : p ∉ fs.files.filter (fun q => q ≠ p) := by
    intro hm
    have := (List.mem_filter.mp hm).2
    simp at this
  simp [h1, hpd, hlk, hpf]

/-- classify never rewrites the selection it reports on. -/
theorem classify_selection (cfg : CcmConfig) (fs : Fs) (s : Selection) :
    (classify cfg fs s).selection = s := by
  by_cases h1 : fs.existsSync s.linkedPath = true
  · by_cases h2 : fs.isSymlink s.linkedPath = true
    · cases hr : getRepository cfg s.repoAlias with
      | none =>
        have hcv : classify cfg fs s = ⟨s, false, some LinkHealthIssue.missingSource⟩ := by
          unfold classify
          simp [h1, h2, hr]
        rw [hcv]
      | some r2 =>
        by_cases h3 : fs.existsSync (r2.localPath ++ "/" ++ s.assetPath) = true
        · have hcv : classify cfg fs s = ⟨s, true, none⟩ := by
            unfold classify
            simp [h1, h2, hr, h3]
          rw [hcv]
        · have hcv : classify cfg fs s = ⟨s, false, some LinkHealthIssue.missingSource⟩ := by
            unfold classify
            simp [h1, h2, hr, h3]
          rw [hcv]
    · have hcv : classify cfg fs s = ⟨s, false, some LinkHealthIssue.brokenSymlink⟩ := by
        unfold classify
        simp [h1, h2]
      rw [hcv]
  · have hcv : classify cfg fs s = ⟨s, false, some LinkHealthIssue.brokenSymlink⟩ := by
      unfold classify
      simp [h1]
    rw [hcv]

/-- classify yields the missing_source verdict only when the link path
still resolves and is a symlink, while the owning source record is absent
or the asset path under it no longer exists: the two existence checks run
first and claim the broken_symlink verdict in every other failing case. -/
theorem classify_missingSource_only (cfg : CcmConfig) (fs : Fs) (s : Selection)
    (h : (classify cfg fs s).issue = some LinkHealthIssue.missingSource) :
    fs.existsSync s.linkedPath = true ∧ fs.isSymlink s.linkedPath = true ∧
    (getRepository cfg s.repoAlias = none ∨
     ∃ r2, getRepository cfg s.repoAlias = some r2 ∧
       fs.existsSync (r2.localPath ++ "/" ++ s.assetPath) = false) := by
  by_cases h1 : fs.existsSync s.linkedPath = true
  · by_cases h2 : fs.isSymlink s.linkedPath = true
    · refine ⟨h1, h2, ?_⟩
      cases hr : getRepository cfg s.repoAlias with
      | none => exact Or.inl rfl
      | some r2 =>
        by_cases h3 : fs.existsSync (r2.localPath ++ "/" ++ s.assetPath) = true
        · exfalso
          have hcv : classify cfg fs s = ⟨s, true, none⟩ := by
            unfold classify
            simp [h1, h2, hr, h3]
          rw [hcv] at h
          simp at h
        · exact Or.inr ⟨r2, rfl, by simpa using h3⟩
    · exfalso
      have hcv : classify cfg fs s = ⟨s, false, some LinkHealthIssue.brokenSymlink⟩ := by
        unfold classify
        simp [h1, h2]
      rw [hcv] at h
      simp at h
  · exfalso
    have hcv : classify cfg fs s = ⟨s, false, some LinkHealthIssue.brokenSymlink⟩ := by
      unfold classify
      simp [h1]
    rw [hcv] at h
    simp at h

/-- Core diagnose facts for a freshly created link of any non-mcp kind:
over a base filesystem where the link path is fresh and the source file
exists, the recorded selection diagnoses healthy, and deleting either end
of the symlink afterwards diagnoses broken with reason broken_symlink. -/
theorem fresh_link_diagnose (cfg1 : CcmConfig) (fsB : Fs) (a2 ap : String)
    (t : AssetType) (tp : String) (repo : Repository)
    (hnm : t ≠ AssetType.mcp)
    (hsel : (⟨a2, ap, t, tp⟩ : Selection) ∈ cfg1.selections)
    (hrepo : getRepository cfg1 a2 = some repo)
    (hsrc : (repo.localPath ++ "/" ++ ap) ∈ fsB.files)
    (hsrcd : (repo.localPath ++ "/" ++ ap) ∉ fsB.dirs)
    (htf : tp ∉ fsB.files)
    (htd : tp ∉ fsB.dirs) :
    (⟨⟨a2, ap, t, tp⟩, true, none⟩ : LinkHealth)
      ∈ (diagnose cfg1 (fsB.addSymlink tp (repo.localPath ++ "/" ++ ap))).healthy ∧
    (⟨⟨a2, ap, t, tp⟩, false, some LinkHealthIssue.brokenSymlink⟩ : LinkHealth)
      ∈ (diagnose cfg1 ((fsB.addSymlink tp (repo.localPath ++ "/" ++ ap)).unlink
          (repo.localPath ++ "/" ++ ap))).broken ∧
    (⟨⟨a2, ap, t, tp⟩, false, some LinkHealthIssue.brokenSymlink⟩ : LinkHealth)
      ∈ (diagnose cfg1 ((fsB.addSymlink tp (repo.localPath ++ "/" ++ ap)).unlink tp)).broken := by
  have htpsp : tp ≠ (repo.localPath ++ "/" ++ ap) := by
    intro he
    rw [he] at htf
    exact htf hsrc
  refine ⟨?_, ?_, ?_⟩
  · apply mem_diagnose_healthy_of
    · exact hsel
    · exact hnm
    · have hex : (fsB.addSymlink tp (repo.localPath ++ "/" ++ ap)).existsSync tp = true :=
        existsSync_addSymlink_self fsB tp _ hsrc
      have hsym : (fsB.addSymlink tp (repo.localPath ++ "/" ++ ap)).isSymlink tp = true :=
        isSymlink_addSymlink_self fsB tp _
      have hex2 : (fsB.addSymlink tp (repo.localPath ++ "/" ++ ap)).existsSync
          (repo.localPath ++ "/" ++ ap) = true :=
        existsSync_true_of_file _ _ hsrc
      unfold classify
      simp [hex, hsym, hrepo, hex2]
  · apply mem_diagnose_broken_of
    · exact hsel
    · exact hnm
    · have hex : ((fsB.addSymlink tp (repo.localPath ++ "/" ++ ap)).unlink
          (repo.localPath ++ "/" ++ ap)).existsSync tp = false :=
        existsSync_unlink_target fsB tp _ htf htd htpsp hsrcd
      unfold classify
      simp [hex]
  · apply mem_diagnose_broken_of
    · exact hsel
    · exact hnm
    · have hex : ((fsB.addSymlink tp (repo.localPath ++ "/" ++ ap)).unlink tp).existsSync tp
          = false :=
        existsSync_unlink_self fsB tp _ htf htd
      unfold classify
      simp [hex]

/-- C1 amended: every selection freshly created by link, of any linkable
kind (agent, skill or command), diagnoses as healthy; deleting only the
symlink diagnoses broken with reason broken_symlink, as the claim states;
deleting only the underlying source file ALSO diagnoses broken with reason
broken_symlink (the dangling link no longer passes the existence check that
runs first), not missing_source; and missing_source is only ever reported
when the link path still resolves and is a symlink but the owning source
record is missing or the asset path under it no longer exists. -/
theorem c1_link_diagnose_roundtrip (cfg : CcmConfig) (fs : Fs) (a : String) (asset : Asset)
    (repo : Repository)
    (hrepo : getRepository cfg a = some repo)
    (htype : asset.type ≠ AssetType.mcp)
    (hsrc : (repo.localPath ++ "/" ++ asset.path) ∈ fs.files)
    (hsrcd : (repo.localPath ++ "/" ++ asset.path) ∉ fs.dirs)
    (hspa : (repo.localPath ++ "/" ++ asset.path) ≠ getAgentsDir)
    (hspc : (repo.localPath ++ "/" ++ asset.path) ≠ getCommandsDir)
    (hsps : (repo.localPath ++ "/" ++ asset.path) ≠ getSkillsDir)
    (hspsk : (repo.localPath ++ "/" ++ asset.path)
        ≠ getSkillsDir ++ "/" ++ getNamespacedFilename a asset.name)
    (htf : linkedTargetPath a asset ∉ fs.files)
    (htd : linkedTargetPath a asset ∉ fs.dirs)
    (htl : fs.linkTarget (linkedTargetPath a asset) = none) :
    (∃ cfg1 fs1,
      linkAsset cfg fs a asset
        = Except.ok (cfg1, fs1, ⟨a, asset.path, asset.type, linkedTargetPath a asset⟩) ∧
      (⟨⟨a, asset.path, asset.type, linkedTargetPath a asset⟩, true, none⟩ : LinkHealth)
        ∈ (diagnose cfg1 fs1).healthy ∧
      (⟨⟨a, asset.path, asset.type, linkedTargetPath a asset⟩, false,
          some LinkHealthIssue.brokenSymlink⟩ : LinkHealth)
        ∈ (diagnose cfg1 (fs1.unlink (repo.localPath ++ "/" ++ asset.path))).broken ∧
      (⟨⟨a, asset.path, asset.type, linkedTargetPath a asset⟩, false,
          some LinkHealthIssue.brokenSymlink⟩ : LinkHealth)
        ∈ (diagnose cfg1 (fs1.unlink (linkedTargetPath a asset))).broken) ∧
    (∀ (cfg2 : CcmConfig) (fs2 : Fs) (lh : LinkHealth),
      lh ∈ (diagnose cfg2 fs2).broken →
      lh.issue = some LinkHealthIssue.missingSource →
      fs2.existsSync lh.selection.linkedPath = true ∧
      fs2.isSymlink lh.selection.linkedPath = true ∧
      (getRepository cfg2 lh.selection.repoAlias = none ∨
       ∃ r2, getRepository cfg2 lh.selection.repoAlias = some r2 ∧
         fs2.existsSync (r2.localPath ++ "/" ++ lh.selection.assetPath) = false)) := by
  constructor
  · cases hty : asset.type with
    | mcp => exact absurd hty htype
    | agent =>
      have htpE : linkedTargetPath a asset
          = getAgentsDir ++ "/"
            ++ (getNamespacedFilename a (basenameMinus asset.path (extname asset.path))
                ++ extname asset.path) := by
        unfold linkedTargetPath
        rw [hty]
      have htpne : linkedTargetPath a asset ≠ getAgentsDir := by
        rw [htpE]
        apply ne_of_length
        rw [length_path_append]
        omega
      have htpsp : linkedTargetPath a asset ≠ (repo.localPath ++ "/" ++ asset.path) := by
        intro he
        rw [he] at htf
        exact htf hsrc
      have hsp : fs.existsSync (repo.localPath ++ "/" ++ asset.path) = true :=
        existsSync_true_of_file fs _ hsrc
      have htdm : linkedTargetPath a asset ∉ (fs.mkdirAt getAgentsDir).dirs :=
        mkdirAt_dirs_not_mem fs _ _ htd htpne
      have hsdm : (repo.localPath ++ "/" ++ asset.path) ∉ (fs.mkdirAt getAgentsDir).dirs :=
        mkdirAt_dirs_not_mem fs _ _ hsrcd hspa
      have htpx : (fs.mkdirAt getAgentsDir).existsSync (linkedTargetPath a asset) = false :=
        existsSync_false_of _ _ htf htdm htl
      have hlink : linkAsset cfg fs a asset
          = Except.ok
              (addSelection cfg ⟨a, asset.path, AssetType.agent, linkedTargetPath a asset⟩,
               (fs.mkdirAt getAgentsDir).addSymlink (linkedTargetPath a asset)
                 (repo.localPath ++ "/" ++ asset.path),
               ⟨a, asset.path, AssetType.agent, linkedTargetPath a asset⟩) := by
        unfold linkAsset
        rw [hrepo]
        simp only [hty]
        rw [if_neg (by decide : ¬ (AssetType.agent = AssetType.mcp))]
        simp only [hsp, not_true, Bool.false_eq_true, if_false]
        simp only [getTargetDir]
        rw [if_neg (by decide : ¬ (AssetType.agent = AssetType.skill))]
        rw [← htpE]
        simp only [htpx, Bool.false_eq_true, if_false]
        have hnoexist : ((fs.mkdirAt getAgentsDir).isFile (linkedTargetPath a asset)
            || (fs.mkdirAt getAgentsDir).isSymlink (linkedTargetPath a asset)
            || (fs.mkdirAt getAgentsDir).isDir (linkedTargetPath a asset)) = false := by
          have h1 : (fs.mkdirAt getAgentsDir).isFile (linkedTargetPath a asset) = false := by
            unfold Fs.isFile
            rw [mkdirAt_files]
            simp [htf]
          have h2 : (fs.mkdirAt getAgentsDir).isSymlink (linkedTargetPath a asset) = false := by
            unfold Fs.isSymlink
            have he : (fs.mkdirAt getAgentsDir).linkTarget (linkedTargetPath a asset)
                = none := htl
            rw [he]
            rfl
          have h3 : (fs.mkdirAt getAgentsDir).isDir (linkedTargetPath a asset) = false := by
            unfold Fs.isDir
            simp [htdm]
          rw [h1, h2, h3]
          rfl
        simp only [hnoexist, Bool.false_eq_true, if_false]
      have hd := fresh_link_diagnose
        (addSelection cfg ⟨a, asset.path, AssetType.agent, linkedTargetPath a asset⟩)
        (fs.mkdirAt getAgentsDir) a asset.path AssetType.agent (linkedTargetPath a asset)
        repo (by decide) (addSelection_mem cfg _) hrepo hsrc hsdm htf htdm
      exact ⟨_, _, hlink, hd.1, hd.2.1, hd.2.2⟩
    | command =>
      have htpE : linkedTargetPath a asset
          = getCommandsDir ++ "/"
            ++ (getNamespacedFilename a (basenameMinus asset.path (extname asset.path))
                ++ extname asset.path) := by
        unfold linkedTargetPath
        rw [hty]
      have htpne : linkedTargetPath a asset ≠ getCommandsDir := by
        rw [htpE]
        apply ne_of_length
        rw [length_path_append]
        omega
      have htpsp : linkedTargetPath a asset ≠ (repo.localPath ++ "/" ++ asset.path) := by
        intro he
        rw [he] at htf
        exact htf hsrc
      have hsp : fs.existsSync (repo.localPath ++ "/" ++ asset.path) = true :=
        existsSync_true_of_file fs _ hsrc
      have htdm : linkedTargetPath a asset ∉ (fs.mkdirAt getCommandsDir).dirs :=
        mkdirAt_dirs_not_mem fs _ _ htd htpne
      have hsdm : (repo.localPath ++ "/" ++ asset.path) ∉ (fs.mkdirAt getCommandsDir).dirs :=
        mkdirAt_dirs_not_mem fs _ _ hsrcd hspc
      have htpx : (fs.mkdirAt getCommandsDir).existsSync (linkedTargetPath a asset) = false :=
        existsSync_false_of _ _ htf htdm htl
      have hlink : linkAsset cfg fs a asset
          = Except.ok
              (addSelection cfg ⟨a, asset.path, AssetType.command, linkedTargetPath a asset⟩,
               (fs.mkdirAt getCommandsDir).addSymlink (linkedTargetPath a asset)
                 (repo.localPath ++ "/" ++ asset.path),
               ⟨a, asset.path, AssetType.command, linkedTargetPath a asset⟩) := by
        unfold linkAsset
        rw [hrepo]
        simp only [hty]
        rw [if_neg (by decide : ¬ (AssetType.command = AssetType.mcp))]
        simp only [hsp, not_true, Bool.false_eq_true, if_false]
        simp only [getTargetDir]
        rw [if_neg (by decide : ¬ (AssetType.command = AssetType.skill))]
        rw [← htpE]
        simp only [htpx, Bool.false_eq_true, if_false]
        have hnoexist : ((fs.mkdirAt getCommandsDir).isFile (linkedTargetPath a asset)
            || (fs.mkdirAt getCommandsDir).isSymlink (linkedTargetPath a asset)
            || (fs.mkdirAt getCommandsDir).isDir (linkedTargetPath a asset)) = false := by
          have h1 : (fs.mkdirAt getCommandsDir).isFile (linkedTargetPath a asset) = false := by
            unfold Fs.isFile
            rw [mkdirAt_files]
            simp [htf]
          have h2 : (fs.mkdirAt getCommandsDir).isSymlink (linkedTargetPath a asset)
              = false := by
            unfold Fs.isSymlink
            have he : (fs.mkdirAt getCommandsDir).linkTarget (linkedTargetPath a asset)
                = none := htl
            rw [he]
            rfl
          have h3 : (fs.mkdirAt getCommandsDir).isDir (linkedTargetPath a asset) = false := by
            unfold Fs.isDir
            simp [htdm]
          rw [h1, h2, h3]
          rfl
        simp only [hnoexist, Bool.false_eq_true, if_false]
      have hd := fresh_link_diagnose
        (addSelection cfg ⟨a, asset.path, AssetType.command, linkedTargetPath a asset⟩)
        (fs.mkdirAt getCommandsDir) a asset.path AssetType.command (linkedTargetPath a asset)
        repo (by decide) (addSelection_mem cfg _) hrepo hsrc hsdm htf htdm
      exact ⟨_, _, hlink, hd.1, hd.2.1, hd.2.2⟩
    | skill =>
      have htpE : linkedTargetPath a asset
          = getSkillsDir ++ "/" ++ getNamespacedFilename a asset.name ++ "/SKILL.md" := by
        unfold linkedTargetPath
        rw [hty]
      have htpne1 : linkedTargetPath a asset ≠ getSkillsDir := by
        rw [htpE]
        apply ne_of_length
        rw [length_append_str, length_path_append,
          show ("/SKILL.md" : String).length = 9 from rfl]
        omega
      have htpne2 : linkedTargetPath a asset
          ≠ getSkillsDir ++ "/" ++ getNamespacedFilename a asset.name := by
        rw [htpE]
        apply ne_of_length
        rw [length_append_str, show ("/SKILL.md" : String).length = 9 from rfl]
        omega
      have htpsp : linkedTargetPath a asset ≠ (repo.localPath ++ "/" ++ asset.path) := by
        intro he
        rw [he] at htf
        exact htf hsrc
      have hsp : fs.existsSync (repo.localPath ++ "/" ++ asset.path) = true :=
        existsSync_true_of_file fs _ hsrc
      have htdm : linkedTargetPath a asset
          ∉ ((fs.mkdirAt getSkillsDir).mkdirAt
              (getSkillsDir ++ "/" ++ getNamespacedFilename a asset.name)).dirs :=
        mkdirAt_dirs_not_mem _ _ _ (mkdirAt_dirs_not_mem fs _ _ htd htpne1) htpne2
      have hsdm : (repo.localPath ++ "/" ++ asset.path)
          ∉ ((fs.mkdirAt getSkillsDir).mkdirAt
              (getSkillsDir ++ "/" ++ getNamespacedFilename a asset.name)).dirs :=
        mkdirAt_dirs_not_mem _ _ _ (mkdirAt_dirs_not_mem fs _ _ hsrcd hsps) hspsk
      have htpx : ((fs.mkdirAt getSkillsDir).mkdirAt
          (getSkillsDir ++ "/" ++ getNamespacedFilename a asset.name)).existsSync
            (linkedTargetPath a asset) = false :=
        existsSync_false_of _ _ htf htdm htl
      have hlink : linkAsset cfg fs a asset
          = Except.ok
              (addSelection cfg ⟨a, asset.path, AssetType.skill, linkedTargetPath a asset⟩,
               ((fs.mkdirAt getSkillsDir).mkdirAt
                 (getSkillsDir ++ "/" ++ getNamespacedFilename a asset.name)).addSymlink
                 (linkedTargetPath a asset) (repo.localPath ++ "/" ++ asset.path),
               ⟨a, asset.path, AssetType.skill, linkedTargetPath a asset⟩) := by
        unfold linkAsset
        rw [hrepo]
        simp only [hty]
        rw [if_neg (by decide : ¬ (AssetType.skill = AssetType.mcp))]
        simp only [hsp, not_true, Bool.false_eq_true, if_false]
        simp only [getTargetDir]
        simp only [if_true]
        rw [← htpE]
        simp only [htpx, Bool.false_eq_true, if_false]
        have hnoexist : (((fs.mkdirAt getSkillsDir).mkdirAt
            (getSkillsDir ++ "/" ++ getNamespacedFilename a asset.name)).isFile
              (linkedTargetPath a asset)
            || ((fs.mkdirAt getSkillsDir).mkdirAt
                (getSkillsDir ++ "/" ++ getNamespacedFilename a asset.name)).isSymlink
                  (linkedTargetPath a asset)
            || ((fs.mkdirAt getSkillsDir).mkdirAt
                (getSkillsDir ++ "/" ++ getNamespacedFilename a asset.name)).isDir
                  (linkedTargetPath a asset)) = false := by
          have h1 : ((fs.mkdirAt getSkillsDir).mkdirAt
              (getSkillsDir ++ "/" ++ getNamespacedFilename a asset.name)).isFile
                (linkedTargetPath a asset) = false := by
            unfold Fs.isFile
            rw [mkdirAt_files, mkdirAt_files]
            simp [htf]
          have h2 : ((fs.mkdirAt getSkillsDir).mkdirAt
              (getSkillsDir ++ "/" ++ getNamespacedFilename a asset.name)).isSymlink
                (linkedTargetPath a asset) = false := by
            unfold Fs.isSymlink
            have he : ((fs.mkdirAt getSkillsDir).mkdirAt
                (getSkillsDir ++ "/" ++ getNamespacedFilename a asset.name)).linkTarget
                  (linkedTargetPath a asset) = none := htl
            rw [he]
            rfl
          have h3 : ((fs.mkdirAt getSkillsDir).mkdirAt
              (getSkillsDir ++ "/" ++ getNamespacedFilename a asset.name)).isDir
                (linkedTargetPath a asset) = false := by
            unfold Fs.isDir
            simp [htdm]
          rw [h1, h2, h3]
          rfl
        simp only [hnoexist, Bool.false_eq_true, if_false]
      have hd := fresh_link_diagnose
        (addSelection cfg ⟨a, asset.path, AssetType.skill, linkedTargetPath a asset⟩)
        ((fs.mkdirAt getSkillsDir).mkdirAt
          (getSkillsDir ++ "/" ++ getNamespacedFilename a asset.name))
        a asset.path AssetType.skill (linkedTargetPath a asset) repo
        (by decide) (addSelection_mem cfg _) hrepo hsrc hsdm htf htdm
      exact ⟨_, _, hlink, hd.1, hd.2.1, hd.2.2⟩
  · intro cfg2 fs2 lh hmem hiss
    have hmem2 : lh ∈ ((cfg2.selections.filter (fun s => s.type ≠ AssetType.mcp)).map
        (classify cfg2 fs2)).filter (fun h => ¬ h.healthy) := hmem
    have hmem3 := (List.mem_filter.mp hmem2).1
    rw [List.mem_map] at hmem3
    obtain ⟨s, hs, hcs⟩ := hmem3
    have hsel : lh.selection = s := by
      rw [← hcs]
      exact classify_selection cfg2 fs2 s
    rw [hsel]
    apply classify_missingSource_only cfg2 fs2 s
    rw [hcs]
    exact hiss

/-- C1 concrete data: one registered source holding one agent file. -/
def c1repo : Repository := ⟨"t", "github", "u", "/r/t", "o", "r", [], "ts"⟩

def c1cfg0 : CcmConfig := ⟨[c1repo], [], []⟩

def c1fs0 : Fs := ⟨["/r/t/agents/a.md"], [], []⟩

def c1asset : Asset := ⟨AssetType.agent, "agents/a.md", "a"⟩

/-- Registry after linking the agent. -/
def c1cfg1 : CcmConfig :=
  match linkAsset c1cfg0 c1fs0 ("t") c1asset with
  | Except.ok res => res.1
  | Except.error _ => c1cfg0

/-- Filesystem after linking the agent. -/
def c1fs1 : Fs :=
  match linkAsset c1cfg0 c1fs0 ("t") c1asset with
  | Except.ok res => res.2.1
  | Except.error _ => c1fs0

/-- C1 counterexample: after linking the agent and then deleting only the
underlying source file, diagnose reports the selection broken with reason
broken_symlink, not missing_source as the claim states: the dangling
symlink fails the existence check, which runs before the source checks. -/
theorem c1_counterexample :
    (exceptOk (linkAsset c1cfg0 c1fs0 ("t") c1asset)).isSome = true ∧
    (diagnose c1cfg1 (c1fs1.unlink ("/r/t/agents/a.md"))).healthy = [] ∧
    ((diagnose c1cfg1 (c1fs1.unlink ("/r/t/agents/a.md"))).broken.map (fun h => h.issue))
      = [some LinkHealthIssue.brokenSymlink] ∧
    (some LinkHealthIssue.brokenSymlink ≠ some LinkHealthIssue.missingSource) := by
  decide

/-- C1 witness: the amended statement run on the concrete state above. -/
theorem c1_witness :
    getRepository c1cfg0 ("t") = some c1repo ∧
    c1asset.type ≠ AssetType.mcp ∧
    (("/r/t" ++ "/" ++ "agents/a.md") ∈ c1fs0.files) ∧
    ((∃ cfg1 fs1,
      linkAsset c1cfg0 c1fs0 ("t") c1asset
        = Except.ok (cfg1, fs1,
            ⟨"t", c1asset.path, c1asset.type, linkedTargetPath ("t") c1asset⟩) ∧
      (⟨⟨"t", c1asset.path, c1asset.type, linkedTargetPath ("t") c1asset⟩, true, none⟩
          : LinkHealth) ∈ (diagnose cfg1 fs1).healthy ∧
      (⟨⟨"t", c1asset.path, c1asset.type, linkedTargetPath ("t") c1asset⟩, false,
          some LinkHealthIssue.brokenSymlink⟩ : LinkHealth)
        ∈ (diagnose cfg1 (fs1.unlink (c1repo.localPath ++ "/" ++ c1asset.path))).broken ∧
      (⟨⟨"t", c1asset.path, c1asset.type, linkedTargetPath ("t") c1asset⟩, false,
          some LinkHealthIssue.brokenSymlink⟩ : LinkHealth)
        ∈ (diagnose cfg1 (fs1.unlink (linkedTargetPath ("t") c1asset))).broken) ∧
     (∀ (cfg2 : CcmConfig) (fs2 : Fs) (lh : LinkHealth),
      lh ∈ (diagnose cfg2 fs2).broken →
      lh.issue = some LinkHealthIssue.missingSource →
      fs2.existsSync lh.selection.linkedPath = true ∧
      fs2.isSymlink lh.selection.linkedPath = true ∧
      (getRepository cfg2 lh.selection.repoAlias = none ∨
       ∃ r2, getRepository cfg2 lh.selection.repoAlias = some r2 ∧
         fs2.existsSync (r2.localPath ++ "/" ++ lh.selection.assetPath) = false))) :=
  ⟨by decide, by decide, by decide,
   c1_link_diagnose_roundtrip c1cfg0 c1fs0 ("t") c1asset c1repo
     (by decide) (by decide) (by decide) (by decide) (by decide) (by decide) (by decide)
     (by decide) (by decide) (by decide) (by decide)⟩
